import Mathlib

/-!
Verification of the protobufts schema compiler (symbol resolution,
path translation, import synthesis and interface generation).

The Rust sources are shallowly embedded as Lean definitions:

* namespace `ast` mirrors src/proto/compiler/ts/ast.rs (the inline
  compiler's TypeScript AST);
* the proto data model and the resolver mirror
  src/proto/compiler/ts/file_to_folder.rs, with the helper types that
  live in the missing package.rs / package_tree.rs modules modelled
  from the specification (each such definition is marked
  "Modelled from the spec");
* namespace `ast2` and namespace `tc` mirror the modularized compiler
  (src/proto/compiler/ts/types_compiler.rs) together with its missing
  support modules (ensure_import, ts_path, ...), again modelled from
  the specification where the Rust text is not available.

Rust panics (unwrap, assert!, unreachable!, index out of bounds) are
modelled as `PErr.panicked`, `todo!` as `PErr.notImplemented`, and
`ProtoError` as `PErr.protoError`; fallible functions return `Except`.
-/

namespace Protobufts

/-- Abnormal outcomes of the compiler: a returned ProtoError
(src/proto/error.rs), a todo! "not implemented" abort, or a panic
(failed assert/unwrap/unreachable). -/
inductive PErr where
  | protoError (msg : String)
  | notImplemented (msg : String)
  | panicked (msg : String)
  deriving DecidableEq

namespace ast

/-- Mirrors struct Identifier (ast.rs line 45). -/
structure Identifier where
  text : String
  deriving DecidableEq

/-- Mirrors struct ImportSpecifier (ast.rs line 71). -/
structure ImportSpecifier where
  name : Identifier
  property_name : Option Identifier
  deriving DecidableEq

/-- Mirrors ImportSpecifier::new (ast.rs line 83). -/
def ImportSpecifier.new (name : Identifier) : ImportSpecifier :=
  ⟨name, none⟩

/-- Mirrors struct ImportClause (ast.rs line 92); the NamedImports
wrapper used at the construction site in file_to_folder.rs corresponds
to the plain list stored in named_bindings. -/
structure ImportClause where
  name : Option Identifier
  named_bindings : Option (List ImportSpecifier)
  deriving DecidableEq

/-- Mirrors struct StringLiteral (ast.rs line 7). -/
structure StringLiteral where
  text : String
  deriving DecidableEq

/-- Mirrors struct NumericLiteral (ast.rs line 23). -/
structure NumericLiteral where
  text : String
  deriving DecidableEq

/-- Mirrors struct ImportDeclaration (ast.rs line 107); the Box around
the clause is dropped. -/
structure ImportDeclaration where
  import_clause : ImportClause
  string_literal : StringLiteral
  deriving DecidableEq

/-- Mirrors enum Modifier (ast.rs line 122). -/
inductive Modifier where
  | export
  deriving DecidableEq

/-- Mirrors enum Type (ast.rs line 214).  The UnionType struct wrapping
a Vec of member types is flattened into the member list carried
directly by the unionType constructor. -/
inductive TsType where
  | number
  | null
  | undefined
  | never
  | void
  | boolean
  | string
  | unionType (types : List TsType)
  | arrayType (t : TsType)
  | record (k : TsType) (v : TsType)
  | typeReference (id : Identifier)

/-- Structural equality test for TsType (the derived PartialEq of the
Rust enum). -/
def TsType.beq : TsType → TsType → Bool
  | .number, .number => true
  | .null, .null => true
  | .undefined, .undefined => true
  | .never, .never => true
  | .void, .void => true
  | .boolean, .boolean => true
  | .string, .string => true
  | .unionType xs, .unionType ys => beqList xs ys
  | .arrayType a, .arrayType b => TsType.beq a b
  | .record k v, .record k' v' => TsType.beq k k' && TsType.beq v v'
  | .typeReference a, .typeReference b => a == b
  | _, _ => false
where
  beqList : List TsType → List TsType → Bool
  | [], [] => true
  | x :: xs, y :: ys => TsType.beq x y && beqList xs ys
  | _, _ => false

set_option maxHeartbeats 1600000 in
theorem TsType.beq_iff :
    ∀ a b : TsType, TsType.beq a b = true ↔ a = b := by
  apply TsType.beq.induct
    (fun xs ys => (TsType.beq.beqList xs ys = true) ↔ xs = ys)
    (fun a b => (TsType.beq a b = true) ↔ a = b)
  case case12 =>
    intro t x h1 h2 h3 h4 h5 h6 h7 h8 h9 h10 h11
    cases t <;> cases x <;> simp_all [TsType.beq]
    exact fun _ _ => h10 _ _ _ _ rfl rfl rfl rfl
  case case15 =>
    intro t x h1 h2
    cases t <;> cases x <;> simp_all [TsType.beq.beqList]
    exact fun _ _ => h2 _ _ _ _ rfl rfl rfl rfl
  all_goals intros
  all_goals simp_all [TsType.beq, TsType.beq.beqList]

instance : BEq TsType := ⟨TsType.beq⟩

instance : LawfulBEq TsType where
  eq_of_beq h := (TsType.beq_iff _ _).mp h
  rfl := (TsType.beq_iff _ _).mpr rfl

instance : DecidableEq TsType := fun a b =>
  decidable_of_iff (TsType.beq a b = true) (TsType.beq_iff a b)

/-- Mirrors UnionType::push (ast.rs lines 183-205), phrased on the
member list of the union being built: Never is dropped, nested unions
are flattened recursively, and a member equal to one already present
is dropped. -/
def unionPush (self : List TsType) (t : TsType) : List TsType :=
  match t with
  | .never => self
  | .unionType ts => unionPushAll self ts
  | _ => if self.elem t then self else self ++ [t]
where
  unionPushAll : List TsType → List TsType → List TsType
  | self, [] => self
  | self, x :: rest => unionPushAll (unionPush self x) rest

/-- Mirrors the From UnionType for Type conversion (ast.rs lines
228-239): an empty union collapses to Never, a one-member union to its
member, anything else stays a union. -/
def unionToType (types : List TsType) : TsType :=
  match types with
  | [] => .never
  | [x] => x
  | _ => .unionType types

/-- Mirrors Type::or (ast.rs lines 258-263): push both operands into a
fresh union and convert the result back to a type. -/
def TsType.or (a b : TsType) : TsType :=
  unionToType (unionPush (unionPush [] a) b)

/-- Mirrors struct PropertySignature (ast.rs line 279). -/
structure PropertySignature where
  name : Identifier
  propertyType : TsType
  optional : Bool

/-- Mirrors PropertySignature::new (ast.rs line 286). -/
def PropertySignature.new (name : String) (propertyType : TsType) :
    PropertySignature :=
  ⟨⟨name⟩, propertyType, false⟩

/-- Mirrors PropertySignature::new_optional (ast.rs line 293). -/
def PropertySignature.new_optional (name : String) (propertyType : TsType) :
    PropertySignature :=
  ⟨⟨name⟩, propertyType, true⟩

/-- Mirrors enum InterfaceMember (ast.rs line 301). -/
inductive InterfaceMember where
  | propertySignature (p : PropertySignature)

/-- Mirrors struct InterfaceDeclaration (ast.rs line 312). -/
structure InterfaceDeclaration where
  modifiers : List Modifier
  name : Identifier
  members : List InterfaceMember

/-- Mirrors InterfaceDeclaration::new_exported (ast.rs line 326). -/
def InterfaceDeclaration.new_exported (name : String) : InterfaceDeclaration :=
  ⟨[.export], ⟨name⟩, []⟩

/-- Mirrors enum EnumValue (ast.rs line 127). -/
inductive EnumValue where
  | stringV (s : StringLiteral)
  | numberV (n : NumericLiteral)

/-- Mirrors struct EnumMember (ast.rs line 160). -/
structure EnumMember where
  name : Identifier
  value : Option EnumValue

/-- Mirrors struct EnumDeclaration (ast.rs line 166). -/
structure EnumDeclaration where
  modifiers : List Modifier
  name : Identifier
  members : List EnumMember

/-- Mirrors struct Parameter (ast.rs line 333). -/
structure Parameter where
  name : Identifier
  parameter_type : TsType
  optional : Bool

mutual
/-- Mirrors enum Statement (ast.rs line 413); the ReturnStatement
expression payload is irrelevant here and dropped to an Option Unit. -/
inductive Statement where
  | importDeclaration (d : ImportDeclaration)
  | enumDeclaration (d : EnumDeclaration)
  | interfaceDeclaration (d : InterfaceDeclaration)
  | functionDeclaration (d : FunctionDeclaration)
  | returnStatement (e : Option Unit)

/-- Mirrors struct FunctionDeclaration (ast.rs line 357). -/
inductive FunctionDeclaration where
  | mk (modifiers : List Modifier) (name : Identifier)
      (parameters : List Parameter) (return_type : TsType)
      (body : List Statement)
end

/-- Mirrors struct SourceFile (ast.rs line 2). -/
structure SourceFile where
  statements : List Statement

/-- Mirrors struct File (ast.rs line 443). -/
structure File where
  name : String
  ast : SourceFile

/-- Mirrors File::new (ast.rs line 449). -/
def File.new (name : String) : File :=
  ⟨name, ⟨[]⟩⟩

/-- Mirrors enum FolderEntry and struct Folder (ast.rs lines 463-492);
the Folder payload of the folder entry is flattened into its name and
entry list. -/
inductive FolderEntry where
  | file (f : File)
  | folder (name : String) (entries : List FolderEntry)

/-- Mirrors struct Folder (ast.rs line 489). -/
structure Folder where
  name : String
  entries : List FolderEntry

/-- Mirrors Folder::new (ast.rs line 495). -/
def Folder.new (name : String) : Folder :=
  ⟨name, []⟩

/-- Conversion of a Folder into a FolderEntry (the From impl at ast.rs
line 473). -/
def Folder.toEntry (f : Folder) : FolderEntry :=
  .folder f.name f.entries

end ast

namespace proto

/-- Modelled from the spec: fields of the declaration tree
(package.rs is not under src/).  FieldType is the tagged variant used
by the inline compiler: a dotted identifier path, Repeated, or Map
(spec section 3 and the FieldType matches in file_to_folder.rs). -/
inductive FieldType where
  | idPath (ids : List String)
  | repeated (t : FieldType)
  | map (k : FieldType) (v : FieldType)

/-- Modelled from the spec: a message field; json_name() of the missing
package.rs is treated as a stored attribute naming the generated
property. -/
structure Field where
  json_name : String
  field_type : FieldType

/-- Modelled from the spec: one named, numbered entry of an enum
declaration (used by insert_enum_declaration). -/
structure ProtoEnumEntry where
  name : String
  value : Int

/-- Modelled from the spec: an enum declaration of the schema tree. -/
structure EnumDeclaration where
  name : String
  entries : List ProtoEnumEntry

/-- Modelled from the spec: the ordered entries of a message: a field,
an unsupported exactly-one-of group, a nested enum, or a nested
message.  The nested Declaration::Message payload of the Rust
MessageEntry is flattened into the child message's name and entries. -/
inductive MessageEntry where
  | field (f : Field)
  | oneOf (name : String)
  | enumD (e : EnumDeclaration)
  | message (name : String) (entries : List MessageEntry)

/-- Modelled from the spec: a message declaration. -/
structure MessageDeclaration where
  name : String
  entries : List MessageEntry

/-- Mirrors enum Declaration (package.rs, modelled from the spec):
either an enum or a message. -/
inductive Declaration where
  | enum (e : EnumDeclaration)
  | message (m : MessageDeclaration)

/-- Name of a declaration. -/
def Declaration.name : Declaration → String
  | .enum e => e.name
  | .message m => m.name

/-- View of a message entry as a nested declaration, if it is one. -/
def MessageEntry.declarationOf : MessageEntry → Option Declaration
  | .field _ => none
  | .oneOf _ => none
  | .enumD e => some (.enum e)
  | .message n es => some (.message ⟨n, es⟩)

/-- Modelled from the spec: MessageDeclaration::resolve checks the
message's direct nested declarations for a name match (spec section
4.1 step 1). -/
def MessageDeclaration.resolve (m : MessageDeclaration) (name : String) :
    Option Declaration :=
  findDecl m.entries
where
  findDecl : List MessageEntry → Option Declaration
  | [] => none
  | e :: rest =>
    match e.declarationOf with
    | some d => if d.name = name then some d else findDecl rest
    | none => findDecl rest

/-- Modelled from the spec: an import record of a file, a package path
plus the imported file's name (spec section 3). -/
structure ImportPath where
  packages : List String
  file_name : String

/-- Modelled from the spec: a parsed proto file with its name, package
path, top-level declarations and import records (spec section 3). -/
structure ProtoFile where
  name : String
  path : List String
  declarations : List Declaration
  imports : List ImportPath

/-- Modelled from the spec: ProtoFile::resolve checks the file's
top-level declarations for a name match (spec section 4.1 step 2). -/
def ProtoFile.resolve (pf : ProtoFile) (name : String) : Option Declaration :=
  findDecl pf.declarations
where
  findDecl : List Declaration → Option Declaration
  | [] => none
  | d :: rest => if d.name = name then some d else findDecl rest

/-- Modelled from the spec: the diagnostic path of a file (used only
inside error messages). -/
def ProtoFile.full_path (pf : ProtoFile) : String :=
  String.intercalate "/" (pf.path ++ [pf.name])

/-- Modelled from the spec: the package tree is a recursive structure
keyed by package-path segment, yielding the set of files at each path
(spec section 3, package_tree.rs is not under src/). -/
inductive PackageTree where
  | mk (name : String) (files : List ProtoFile) (children : List PackageTree)

/-- Name of a package tree node. -/
def PackageTree.name : PackageTree → String
  | .mk n _ _ => n

/-- Files stored at a package tree node. -/
def PackageTree.files : PackageTree → List ProtoFile
  | .mk _ fs _ => fs

/-- Child subtrees of a package tree node. -/
def PackageTree.children : PackageTree → List PackageTree
  | .mk _ _ cs => cs

/-- Modelled from the spec: prefix lookup of a subtree at a package
path (PackageTree::resolve_subtree of the missing package_tree.rs). -/
def PackageTree.resolve_subtree : PackageTree → List String → Option PackageTree
  | t, [] => some t
  | t, p :: rest =>
    match t.children.find? (fun c => c.name == p) with
    | some c => c.resolve_subtree rest
    | none => none

end proto

open proto

/-- Mirrors enum PathComponent (file_to_folder.rs line 121). -/
inductive PathComponent where
  | package (s : String)
  | file (s : String)
  | message (s : String)
  | enum (s : String)
  deriving DecidableEq

/-- Mirrors the From impl converting a path component to its name
(file_to_folder.rs line 128). -/
def PathComponent.nameOf : PathComponent → String
  | .package s => s
  | .file s => s
  | .message s => s
  | .enum s => s

/-- Mirrors struct ProtoPath (file_to_folder.rs line 139), flattened to
the underlying component list. -/
abbrev ProtoPath := List PathComponent

/-- Mirrors enum TsPathComponent (file_to_folder.rs line 156). -/
inductive TsPathComponent where
  | folder (s : String)
  | file (s : String)
  | enum (s : String)
  | interface (s : String)
  | function (s : String)
  deriving DecidableEq

/-- Mirrors the From impl converting a TS path component to its name
(file_to_folder.rs line 164). -/
def TsPathComponent.nameOf : TsPathComponent → String
  | .folder s => s
  | .file s => s
  | .enum s => s
  | .interface s => s
  | .function s => s

/-- Mirrors TsPathComponent::is_declaration (file_to_folder.rs line
177). -/
def TsPathComponent.is_declaration : TsPathComponent → Bool
  | .folder _ => false
  | .file _ => false
  | .enum _ => true
  | .interface _ => true
  | .function _ => true

/-- Mirrors TsPathComponent::is_file (file_to_folder.rs line 186). -/
def TsPathComponent.is_file : TsPathComponent → Bool
  | .file _ => true
  | _ => false

/-- Mirrors TsPathComponent::is_folder (file_to_folder.rs line 189). -/
def TsPathComponent.is_folder : TsPathComponent → Bool
  | .folder _ => true
  | _ => false

/-- Mirrors struct TsPath (file_to_folder.rs line 195), flattened to
the underlying component list. -/
abbrev TsPath := List TsPathComponent

/-- Mirrors fn proto_path_to_ts_path (file_to_folder.rs lines 246-270).
The deterministic file-name-to-folder-name rule lives in the missing
file_name_to_folder_name.rs module; following the specification
(section 4.3), which only requires it to be a deterministic function,
it is passed in as the parameter frule. -/
def proto_path_to_ts_path (frule : String → String) : ProtoPath → TsPath
  | [] => []
  | p :: rest =>
    (match p with
     | .package s => TsPathComponent.folder s
     | .file s => TsPathComponent.folder (frule s)
     | .message s => TsPathComponent.folder s
     | .enum s => TsPathComponent.file s) :: proto_path_to_ts_path frule rest

/-- Mirrors struct BlockScope (file_to_folder.rs line 17): the package
tree root, the owning file, and the enclosing messages innermost
first. -/
structure BlockScope where
  root : PackageTree
  proto_file : ProtoFile
  parent_messages : List MessageDeclaration

/-- Mirrors BlockScope::push (file_to_folder.rs lines 24-34): the
pushed message becomes the innermost enclosing message. -/
def BlockScope.push (scope : BlockScope) (m : MessageDeclaration) : BlockScope :=
  ⟨scope.root, scope.proto_file, m :: scope.parent_messages⟩

/-- Mirrors BlockScope::new (file_to_folder.rs line 36). -/
def BlockScope.new (root : PackageTree) (proto_file : ProtoFile) : BlockScope :=
  ⟨root, proto_file, []⟩

/-- Mirrors BlockScope::path (file_to_folder.rs lines 43-55): package
components, then the file component, then the enclosing messages from
outermost to innermost. -/
def BlockScope.path (scope : BlockScope) : ProtoPath :=
  scope.proto_file.path.map PathComponent.package
    ++ [PathComponent.file scope.proto_file.name]
    ++ scope.parent_messages.reverse.map (fun m => PathComponent.message m.name)

/-- Mirrors BlockScope::stack_trace (file_to_folder.rs lines 300-307). -/
def BlockScope.stack_trace (scope : BlockScope) : List String :=
  scope.parent_messages.map (fun m => m.name) ++ [scope.proto_file.full_path]

/-- Mirrors BlockScope::error (file_to_folder.rs lines 398-405). -/
def BlockScope.error (scope : BlockScope) (message : String) : PErr :=
  .protoError (scope.stack_trace.foldl (fun acc loc => acc ++ "\n  in " ++ loc) message)

/-- Mirrors enum IdType (file_to_folder.rs line 59). -/
inductive IdType where
  | dataType (d : Declaration)
  | package (p : ProtoFile)

/-- Mirrors struct DefinedId (file_to_folder.rs line 65). -/
structure DefinedId where
  scope : BlockScope
  declaration : IdType

/-- Mirrors the backtracking package-path search of the import branch
of BlockScope::resolve (file_to_folder.rs lines 350-384), phrased on
the reversed base path so that dropping the trailing segment of the
base path is structural recursion on the head of revBase: look up the
base path extended with the import's package segments; on a subtree
hit return the file of the matching name found there (if any); when no
subtree exists drop one trailing base segment and retry until the base
path is exhausted. -/
def importSearch (root : PackageTree) (revBase : List String)
    (packages : List String) (file_name : String) : Option ProtoFile :=
  match root.resolve_subtree (revBase.reverse ++ packages) with
  | some subtree => subtree.files.find? (fun f => f.name == file_name)
  | none =>
    match revBase with
    | [] => none
    | _ :: restRev => importSearch root restRev packages file_name

/-- The import-branch search started from the current file's own
package path (file_to_folder.rs line 350: root_path starts as a clone
of the file's path). -/
def tryImport (root : PackageTree) (base : List String)
    (packages : List String) (file_name : String) : Option ProtoFile :=
  importSearch root base.reverse packages file_name

/-- Step 1 of BlockScope::resolve (file_to_folder.rs lines 314-328):
scan the enclosing messages innermost first; a hit also returns the
parent-message stack truncated at the hit. -/
def resolveInParents (name : String) :
    List MessageDeclaration → Option (Declaration × List MessageDeclaration)
  | [] => none
  | p :: rest =>
    match p.resolve name with
    | some d => some (d, p :: rest)
    | none => resolveInParents name rest

/-- Step 3 of BlockScope::resolve (file_to_folder.rs lines 340-385):
scan the import records in order; an import whose final package
segment equals the name is tried via the backtracking search; on a
miss the scan continues with the next import.  An import with an empty
package path panics (last().unwrap() on the Rust side). -/
def resolveImports (root : PackageTree) (pf : ProtoFile) (name : String) :
    List ImportPath → Except PErr (Option ProtoFile)
  | [] => .ok none
  | imp :: rest =>
    match imp.packages.getLast? with
    | none => .error (.panicked "called Option::unwrap on a None value")
    | some lastPkg =>
      if lastPkg = name then
        match tryImport root pf.path imp.packages imp.file_name with
        | some f => .ok (some f)
        | none => resolveImports root pf name rest
      else
        resolveImports root pf name rest

/-- Mirrors BlockScope::resolve (file_to_folder.rs lines 313-388):
enclosing messages innermost to outermost, then the file's top-level
declarations, then the imports; failure produces the "Could not
resolve name" error carrying the stack trace. -/
def BlockScope.resolve (scope : BlockScope) (name : String) :
    Except PErr DefinedId :=
  match resolveInParents name scope.parent_messages with
  | some (d, pm) => .ok ⟨⟨scope.root, scope.proto_file, pm⟩, .dataType d⟩
  | none =>
    match scope.proto_file.resolve name with
    | some d => .ok ⟨⟨scope.root, scope.proto_file, []⟩, .dataType d⟩
    | none =>
      match resolveImports scope.root scope.proto_file name scope.proto_file.imports with
      | .error e => .error e
      | .ok (some f) => .ok ⟨⟨scope.root, scope.proto_file, []⟩, .package f⟩
      | .ok none => .error (scope.error ("Could not resolve name " ++ name))

/-- Mirrors DefinedId::resolve (file_to_folder.rs lines 71-98):
resolving a further name inside an enum is an error; inside a message
it searches the message's direct nested declarations; inside a
cross-file package reference it restarts at that file's top level. -/
def DefinedId.resolve (r : DefinedId) (name : String) : Except PErr DefinedId :=
  match r.declaration with
  | .dataType (.enum e) =>
    .error (r.scope.error ("Cannot resolve " ++ name ++ "\n  in " ++ e.name))
  | .dataType (.message m) =>
    match m.resolve name with
    | some d => .ok ⟨r.scope.push m, .dataType d⟩
    | none =>
      .error (r.scope.error ("Cannot resolve " ++ name ++ "\n  in " ++ m.name))
  | .package p => BlockScope.resolve ⟨r.scope.root, p, []⟩ name

/-- Mirrors DefinedId::path (file_to_folder.rs lines 100-117). -/
def DefinedId.path (r : DefinedId) : ProtoPath :=
  r.scope.path ++
    [match r.declaration with
     | .dataType (.enum e) => PathComponent.enum e.name
     | .dataType (.message m) => PathComponent.message m.name
     | .package p => PathComponent.package p.name]

/-- Mirrors BlockScope::resolve_path (file_to_folder.rs lines 390-396):
resolve the first segment in the block scope and each further segment
in the previously resolved declaration; an empty path panics (index
out of bounds). -/
def BlockScope.resolve_path (scope : BlockScope) (path : List String) :
    Except PErr DefinedId :=
  match path with
  | [] => .error (.panicked "index out of bounds: the len is 0 but the index is 0")
  | p :: rest => do
    let r ← scope.resolve p
    go r rest
where
  go : DefinedId → List String → Except PErr DefinedId
  | r, [] => .ok r
  | r, n :: rest => do
    let r' ← r.resolve n
    go r' rest

/-- The common-prefix stripping loop at the top of get_relative_import
(file_to_folder.rs lines 572-575): advance both paths while their
heads are equal. -/
def stripShared :
    List TsPathComponent → List TsPathComponent →
    List TsPathComponent × List TsPathComponent
  | a :: f, b :: t => if a = b then stripShared f t else (a :: f, b :: t)
  | f, t => (f, t)

/-- The specifier loop of the same-folder branch of get_relative_import
(file_to_folder.rs lines 583-590): one "/name" part per component of
the target path up to its first declaration component. -/
def relSpecifierTail : List TsPathComponent → String
  | [] => ""
  | c :: rest =>
    if c.is_declaration then "" else "/" ++ c.nameOf ++ relSpecifierTail rest

/-- The "../" loop of the cross-folder branch of get_relative_import
(file_to_folder.rs lines 606-609): one "../" per leading folder
component, returning the rest of the path. -/
def leadingDots : List TsPathComponent → String × List TsPathComponent
  | c :: rest =>
    if c.is_folder then
      let (s, r) := leadingDots rest
      ("../" ++ s, r)
    else ("", c :: rest)
  | [] => ("", [])

/-- The folder-joining loop of the cross-folder branch of
get_relative_import (file_to_folder.rs lines 611-617): one "name/" per
leading folder component of the target path, returning the rest. -/
def leadingFolders : List TsPathComponent → String × List TsPathComponent
  | c :: rest =>
    if c.is_folder then
      let (s, r) := leadingFolders rest
      (c.nameOf ++ "/" ++ s, r)
    else ("", c :: rest)
  | [] => ("", [])

/-- Mirrors fn get_relative_import (file_to_folder.rs lines 567-632).
The assert! calls of the Rust function are modelled as panic errors,
so the result is an Except value. -/
def get_relative_import (fromP toP : List TsPathComponent) :
    Except PErr ast.ImportDeclaration :=
  match toP.getLast? with
  | none => .error (.panicked "called Option::unwrap on a None value")
  | some lastTo =>
    if !lastTo.is_declaration then
      .error (.panicked "assertion failed: to.last().unwrap().is_declaration()")
    else
      match stripShared fromP toP with
      | ([], _) => .error (.panicked "assertion failed: from.len() > 0")
      | (_, []) => .error (.panicked "assertion failed: to.len() > 0")
      | (ffirst :: frest, t) =>
        match t.getLast? with
        | none => .error (.panicked "called Option::unwrap on a None value")
        | some imported_component =>
          if !imported_component.is_declaration then
            .error (.panicked "assertion failed: imported_component.is_declaration()")
          else
            let imported_name := imported_component.nameOf
            if ffirst.is_file then
              .ok ⟨⟨none, some [ast.ImportSpecifier.new ⟨imported_name⟩]⟩,
                   ⟨"." ++ relSpecifierTail t⟩⟩
            else
              let (dots, _) := leadingDots (ffirst :: frest)
              let (folders, tRest) := leadingFolders t
              match tRest with
              | [] => .error (.panicked "index out of bounds: the len is 0 but the index is 0")
              | fileComp :: _ =>
                if !fileComp.is_file then
                  .error (.panicked "assertion failed: file_component.is_file()")
                else
                  .ok ⟨⟨none, some [ast.ImportSpecifier.new ⟨imported_name⟩]⟩,
                       ⟨dots ++ folders ++ fileComp.nameOf⟩⟩

/-- Mirrors fn try_get_predefined_type (file_to_folder.rs lines
497-507). -/
def try_get_predefined_type (s : String) : Option ast.TsType :=
  if s = "bool" then some .boolean
  else if s = "string" then some .string
  else if s = "int32" then some .number
  else if s = "uint32" then some .number
  else if s = "float" then some .number
  else if s = "bytes" then some (.typeReference ⟨"Uint8Array"⟩)
  else none

/-- Mirrors fn message_name_to_encode_type_name (file_to_folder.rs
lines 460-462). -/
def message_name_to_encode_type_name (message_name : String) : String :=
  message_name ++ "EncodeInput"

/-- The requested TS path built for a resolved declaration inside
import_encoding_input_type (file_to_folder.rs lines 526-542): the
translated canonical path, extended for an enum with its enum symbol
and for a message with the fixed types file and the encode-input
interface; a package result is unreachable!. -/
def encode_import_target (frule : String → String) (r : DefinedId) :
    Except PErr TsPath :=
  match r.declaration with
  | .dataType (.enum e) =>
    .ok (proto_path_to_ts_path frule r.path ++ [.enum e.name])
  | .dataType (.message m) =>
    .ok (proto_path_to_ts_path frule r.path ++
      [.file "types", .interface (message_name_to_encode_type_name m.name)])
  | .package _ => .error (.panicked "internal error: entered unreachable code")

/-- The identifier-path branch of import_encoding_input_type
(file_to_folder.rs lines 525-553): resolve the dotted path, build the
requested TS path and the current file's TS path, compute the
relative import (whose asserts may panic), discard it, produce Null.
The types_file parameter of the Rust function is not modified on this
branch and is omitted. -/
def idPathResolve (frule : String → String) (scope : BlockScope)
    (ids : List String) : Except PErr ast.TsType := do
  let resolve_result ← scope.resolve_path ids
  let requested_ts_path ← encode_import_target frule resolve_result
  let current_file_path :=
    proto_path_to_ts_path frule scope.path ++ [TsPathComponent.file "types"]
  let _ ← get_relative_import current_file_path requested_ts_path
  .ok .null

/-- Mirrors fn import_encoding_input_type (file_to_folder.rs lines
509-565): predefined scalars map to primitive types, a one-segment
path naming none of them and any longer path are resolved (yielding
Null after the import computation), Repeated wraps in an array type
and Map in a record type. -/
def import_encoding_input_type (frule : String → String)
    (scope : BlockScope) : FieldType → Except PErr ast.TsType
  | .idPath ids =>
    (match ids with
     | [] => .error (.panicked "internal error: entered unreachable code")
     | [single] =>
       match try_get_predefined_type single with
       | some t => .ok t
       | none => idPathResolve frule scope [single]
     | _ => idPathResolve frule scope ids)
  | .repeated t => do
    let element_type ← import_encoding_input_type frule scope t
    .ok (.arrayType element_type)
  | .map k v => do
    let key_type ← import_encoding_input_type frule scope k
    let value_type ← import_encoding_input_type frule scope v
    .ok (.record key_type value_type)

/-- The member loop of insert_encoded_input_interface (file_to_folder.rs
lines 472-485): one optional property per field, mapped with the scope
pushed by the current message; nested declarations are skipped;
exactly-one-of groups abort with todo!. -/
def encodeMembers (frule : String → String) (tscope : BlockScope) :
    List MessageEntry → Except PErr (List ast.InterfaceMember)
  | [] => .ok []
  | .field f :: rest => do
    let t ← import_encoding_input_type frule tscope f.field_type
    let ms ← encodeMembers frule tscope rest
    .ok (.propertySignature (ast.PropertySignature.new_optional f.json_name t) :: ms)
  | .oneOf _ :: _ =>
    .error (.notImplemented "Not implemented handling of OneOf Field")
  | .enumD _ :: rest => encodeMembers frule tscope rest
  | .message _ _ :: rest => encodeMembers frule tscope rest

/-- Mirrors fn insert_encoded_input_interface (file_to_folder.rs lines
464-489): append an exported interface named after the message's
encode-input type with one optional property per field. -/
def insert_encoded_input_interface (frule : String → String)
    (types_file : ast.File) (scope : BlockScope)
    (message_declaration : MessageDeclaration) : Except PErr ast.File := do
  let members ← encodeMembers frule (scope.push message_declaration)
    message_declaration.entries
  .ok ⟨types_file.name,
    ⟨types_file.ast.statements ++
      [.interfaceDeclaration
        ⟨[.export], ⟨message_name_to_encode_type_name message_declaration.name⟩,
         members⟩]⟩⟩

/-- The member loop of insert_decode_result_interface (file_to_folder.rs
lines 688-697): one non-optional property of type Null per field;
exactly-one-of groups abort with todo!. -/
def decodeMembers : List MessageEntry → Except PErr (List ast.InterfaceMember)
  | [] => .ok []
  | .field f :: rest => do
    let ms ← decodeMembers rest
    .ok (.propertySignature (ast.PropertySignature.new f.json_name .null) :: ms)
  | .oneOf _ :: _ =>
    .error (.notImplemented "Not implemented handling of OneOf Field")
  | .enumD _ :: rest => decodeMembers rest
  | .message _ _ :: rest => decodeMembers rest

/-- Mirrors fn insert_decode_result_interface (file_to_folder.rs lines
682-701): append an exported interface named after the message itself
with one always-present property per field. -/
def insert_decode_result_interface (types_file : ast.File)
    (message_declaration : MessageDeclaration) : Except PErr ast.File := do
  let members ← decodeMembers message_declaration.entries
  .ok ⟨types_file.name,
    ⟨types_file.ast.statements ++
      [.interfaceDeclaration ⟨[.export], ⟨message_declaration.name⟩, members⟩]⟩⟩

/-- Mirrors fn insert_message_types (file_to_folder.rs lines 444-458):
build the types file holding the two interfaces and push it into the
message's folder. -/
def insert_message_types (frule : String → String)
    (message_folder : ast.Folder) (scope : BlockScope)
    (message_declaration : MessageDeclaration) : Except PErr ast.Folder := do
  let file0 := ast.File.new "types"
  let file1 ← insert_encoded_input_interface frule file0 scope message_declaration
  let file2 ← insert_decode_result_interface file1 message_declaration
  .ok ⟨message_folder.name, message_folder.entries ++ [.file file2]⟩

/-- Mirrors fn insert_encode (file_to_folder.rs lines 703-714): push an
empty placeholder encode file. -/
def insert_encode (message_folder : ast.Folder) : ast.Folder :=
  ⟨message_folder.name, message_folder.entries ++ [.file (ast.File.new "encode")]⟩

/-- Mirrors fn insert_decode (file_to_folder.rs lines 715-724): push an
empty placeholder decode file. -/
def insert_decode (message_folder : ast.Folder) : ast.Folder :=
  ⟨message_folder.name, message_folder.entries ++ [.file (ast.File.new "decode")]⟩

/-- Mirrors fn insert_enum_declaration (file_to_folder.rs lines
756-772): one file named after the enum holding one exported enum
declaration with one member per entry. -/
def insert_enum_declaration (res : ast.Folder)
    (enum_declaration : proto.EnumDeclaration) : ast.Folder :=
  ⟨res.name,
   res.entries ++
     [.file ⟨enum_declaration.name,
       ⟨[.enumDeclaration
          ⟨[.export], ⟨enum_declaration.name⟩,
           enum_declaration.entries.map (fun entry =>
             ⟨⟨entry.name⟩, some (.numberV ⟨toString entry.value⟩)⟩)⟩]⟩⟩]⟩

/-- Mirrors fn insert_message_declaration together with fn
insert_children (file_to_folder.rs lines 429-442 and 725-754), phrased
on one message entry so that the recursion into child messages is
structural: a field or exactly-one-of entry adds nothing, a nested
enum adds its enum file, and a nested message builds the message's
folder (types file, placeholder encode/decode files, then its own
children processed with the scope extended by the message) and appends
it to the surrounding folder. -/
def insertEntry (frule : String → String) (folder : ast.Folder)
    (scope : BlockScope) : MessageEntry → Except PErr ast.Folder
  | .field _ => .ok folder
  | .oneOf _ => .ok folder
  | .enumD e => .ok (insert_enum_declaration folder e)
  | .message mname mentries => do
    let md : MessageDeclaration := ⟨mname, mentries⟩
    let f0 := ast.Folder.new mname
    let f1 ← insert_message_types frule f0 scope md
    let f2 := insert_encode f1
    let f3 := insert_decode f2
    let f4 ← goChildren f3 (scope.push md) mentries
    .ok ⟨folder.name, folder.entries ++ [.folder f4.name f4.entries]⟩
where
  goChildren : ast.Folder → BlockScope → List MessageEntry → Except PErr ast.Folder
  | folder, _, [] => .ok folder
  | folder, cscope, e :: rest => do
    let folder' ← insertEntry frule folder cscope e
    goChildren folder' cscope rest

/-- Mirrors fn insert_message_declaration (file_to_folder.rs lines
429-442) on a MessageDeclaration value. -/
def insert_message_declaration (frule : String → String)
    (message_parent_folder : ast.Folder) (scope : BlockScope)
    (message_declaration : MessageDeclaration) : Except PErr ast.Folder :=
  insertEntry frule message_parent_folder scope
    (.message message_declaration.name message_declaration.entries)

/-- Mirrors fn file_to_folder (file_to_folder.rs lines 408-427): one
folder named after the file, holding a file per top-level enum and a
folder per top-level message. -/
def file_to_folder (frule : String → String) (root : PackageTree)
    (file : ProtoFile) : Except PErr ast.Folder :=
  go ⟨frule file.name, []⟩ file.declarations
where
  go : ast.Folder → List Declaration → Except PErr ast.Folder
  | res, [] => .ok res
  | res, .enum e :: rest => go (insert_enum_declaration res e) rest
  | res, .message m :: rest => do
    let res' ← insert_message_declaration frule res (BlockScope.new root file) m
    go res' rest


namespace ast2

/-- Modelled from the spec: the modularized compiler's ast module is
not under src/; its shapes are reconstructed from their uses in
types_compiler.rs.  Identifier wraps the symbol text. -/
structure Identifier where
  text : String
  deriving DecidableEq

/-- Modelled from the spec: an import specifier of the modular ast. -/
structure ImportSpecifier where
  name : Identifier
  property_name : Option Identifier
  deriving DecidableEq

/-- Modelled from the spec: ImportSpecifier::new of the modular ast. -/
def ImportSpecifier.new (name : Identifier) : ImportSpecifier :=
  ⟨name, none⟩

/-- Modelled from the spec: an import clause of the modular ast. -/
structure ImportClause where
  name : Option Identifier
  named_bindings : Option (List ImportSpecifier)
  deriving DecidableEq

/-- Modelled from the spec: an import declaration of the modular ast;
the string literal payload is kept as a plain string. -/
structure ImportDeclaration where
  import_clause : ImportClause
  string_literal : String
  deriving DecidableEq

/-- Modelled from the spec: ImportDeclaration::import of the modular
ast as used at types_compiler.rs lines 141-144. -/
def ImportDeclaration.importOf (specifiers : List ImportSpecifier)
    (file_path : String) : ImportDeclaration :=
  ⟨⟨none, some specifiers⟩, file_path⟩

/-- Modelled from the spec: the modular ast's Type enum; it differs
from the inline ast in that a type reference carries a qualified
identifier list (types_compiler.rs line 146 builds
TypeReference(vec![util, Long])). -/
inductive TsType where
  | number
  | null
  | undefined
  | never
  | void
  | boolean
  | string
  | unionType (types : List TsType)
  | arrayType (t : TsType)
  | record (k : TsType) (v : TsType)
  | typeReference (ids : List Identifier)

/-- Structural equality test for the modular ast's Type. -/
def TsType.beq : TsType → TsType → Bool
  | .number, .number => true
  | .null, .null => true
  | .undefined, .undefined => true
  | .never, .never => true
  | .void, .void => true
  | .boolean, .boolean => true
  | .string, .string => true
  | .unionType xs, .unionType ys => beqList xs ys
  | .arrayType a, .arrayType b => TsType.beq a b
  | .record k v, .record k' v' => TsType.beq k k' && TsType.beq v v'
  | .typeReference a, .typeReference b => a == b
  | _, _ => false
where
  beqList : List TsType → List TsType → Bool
  | [], [] => true
  | x :: xs, y :: ys => TsType.beq x y && beqList xs ys
  | _, _ => false

instance : BEq TsType := ⟨TsType.beq⟩

/-- Modelled from the spec: the modular ast's UnionType::push, with the
same behaviour as the inline ast's (ast.rs lines 183-205). -/
def unionPush (self : List TsType) (t : TsType) : List TsType :=
  match t with
  | .never => self
  | .unionType ts => unionPushAll self ts
  | _ => if self.elem t then self else self ++ [t]
where
  unionPushAll : List TsType → List TsType → List TsType
  | self, [] => self
  | self, x :: rest => unionPushAll (unionPush self x) rest

/-- Modelled from the spec: the modular ast's union-to-type collapse,
with the same behaviour as the inline ast's (ast.rs lines 228-239). -/
def unionToType (types : List TsType) : TsType :=
  match types with
  | [] => .never
  | [x] => x
  | _ => .unionType types

/-- Modelled from the spec: the modular ast's Type::or, with the same
behaviour as the inline ast's (ast.rs lines 258-263). -/
def TsType.or (a b : TsType) : TsType :=
  unionToType (unionPush (unionPush [] a) b)

/-- Modelled from the spec: a property signature of the modular ast. -/
structure PropertySignature where
  name : Identifier
  propertyType : TsType
  optional : Bool

/-- Modelled from the spec: PropertySignature::new_optional of the
modular ast. -/
def PropertySignature.new_optional (name : String) (propertyType : TsType) :
    PropertySignature :=
  ⟨⟨name⟩, propertyType, true⟩

/-- Modelled from the spec: an interface member of the modular ast. -/
inductive InterfaceMember where
  | propertySignature (p : PropertySignature)

/-- Modelled from the spec: a modifier of the modular ast. -/
inductive Modifier where
  | export

/-- Modelled from the spec: an interface declaration of the modular
ast. -/
structure InterfaceDeclaration where
  modifiers : List Modifier
  name : Identifier
  members : List InterfaceMember

/-- Modelled from the spec: the statements of the modular ast that the
types compiler can emit into a types file. -/
inductive Statement where
  | importDeclaration (d : ImportDeclaration)
  | interfaceDeclaration (d : InterfaceDeclaration)

/-- Modelled from the spec: a source file of the modular ast. -/
structure SourceFile where
  statements : List Statement

/-- Modelled from the spec: a generated file of the modular ast. -/
structure File where
  name : String
  ast : SourceFile

/-- Modelled from the spec: File::new of the modular ast. -/
def File.new (name : String) : File :=
  ⟨name, ⟨[]⟩⟩

end ast2

namespace tc

/-- Modelled from the spec: the resolved field type of the modular
compiler (package::Type in types_compiler.rs): fixed scalar kinds,
enum and message references by stable declaration id, Repeated and
Map. -/
inductive PType where
  | bool
  | bytes
  | double
  | fixed32
  | fixed64
  | float
  | int32
  | int64
  | sfixed32
  | sfixed64
  | sint32
  | sint64
  | string
  | uint32
  | uint64
  | enum (id : Nat)
  | message (id : Nat)
  | repeated (t : PType)
  | map (k : PType) (v : PType)

/-- Modelled from the spec: a field of the modular declaration tree. -/
structure Field where
  json_name : String
  field_type : PType

/-- Modelled from the spec: a message entry of the modular declaration
tree: a field or an unsupported exactly-one-of group (nested
declarations live in the scope tree, not in the entry list). -/
inductive MessageEntry where
  | field (f : Field)
  | oneOf (name : String)

/-- Modelled from the spec: a message declaration of the modular
compiler. -/
structure MessageDeclaration where
  name : String
  entries : List MessageEntry

/-- Modelled from the spec: the message case of ProtoScope together
with its stable declaration id (ProtoScope::id). -/
structure MsgScope where
  id : Nat
  decl : MessageDeclaration

/-- Name of the scope's message (ProtoScope::name). -/
def MsgScope.name (s : MsgScope) : String :=
  s.decl.name

/-- Modelled from the spec: the root scope owning the declaration
arena: declarations are addressed by stable id (spec section 3), and
the path builder of spec section 4.2 yields each declaration's
canonical path.  RootScope::get_declaration_name and
RootScope::get_declaration_path are kept abstract as the two lookup
functions. -/
structure RootScope where
  decl_name : Nat → Option String
  decl_path : Nat → Option ProtoPath

/-- Modelled from the spec: the PROTOBUF_MODULE constant of the missing
constants.rs (the runtime library module providing util.Long). -/
def PROTOBUF_MODULE : String :=
  "protobufjs/minimal"

/-- Modelled from the spec (section 4.4) and the Option-returning
signature used at the call sites in types_compiler.rs: the modular
get_relative_import returns none for a same-file reference needing no
import, and otherwise computes the relative specifier exactly like the
inline version (file_to_folder.rs lines 567-632). -/
def get_relative_import2 (fromP toP : List TsPathComponent) :
    Option ast2.ImportDeclaration :=
  match toP.getLast? with
  | none => none
  | some lastTo =>
    if !lastTo.is_declaration then none
    else
      match stripShared fromP toP with
      | ([], _) => none
      | (_, []) => none
      | (ffirst :: frest, t) =>
        match t.getLast? with
        | none => none
        | some imported_component =>
          if !imported_component.is_declaration then none
          else
            let imported_name := imported_component.nameOf
            if ffirst.is_file then
              some ⟨⟨none, some [ast2.ImportSpecifier.new ⟨imported_name⟩]⟩,
                    "." ++ relSpecifierTail t⟩
            else
              let (dots, _) := leadingDots (ffirst :: frest)
              let (folders, tRest) := leadingFolders t
              match tRest with
              | [] => none
              | fileComp :: _ =>
                if !fileComp.is_file then none
                else
                  some ⟨⟨none, some [ast2.ImportSpecifier.new ⟨imported_name⟩]⟩,
                        dots ++ folders ++ fileComp.nameOf⟩

/-- Modelled from the spec (section 4.5): ensure_import appends the
given import to the file's statements unless a structurally
identical import declaration is already present. -/
def ensure_import (file : ast2.File) (imp : ast2.ImportDeclaration) :
    ast2.File :=
  if file.ast.statements.any (fun s =>
      match s with
      | .importDeclaration d => d == imp
      | _ => false) then
    file
  else
    ⟨file.name, ⟨file.ast.statements ++ [.importDeclaration imp]⟩⟩

/-- Mirrors fn import_enum_type (types_compiler.rs lines 315-345): the
enum's translated path plus its enum symbol is imported (deduplicated)
into the message's types file, and the enum symbol is referenced.  The
TsPath::from translation of the missing ts_path.rs is the fixed
mapping of spec section 4.3 shared with proto_path_to_ts_path. -/
def import_enum_type (frule : String → String) (root : RootScope)
    (message_scope : MsgScope) (types_file : ast2.File)
    (enum_declaration_id : Nat) : Except PErr (ast2.File × ast2.TsType) :=
  match root.decl_name enum_declaration_id with
  | none => .error (.panicked "called Option::unwrap on a None value")
  | some enum_name =>
    match root.decl_path enum_declaration_id with
    | none => .error (.panicked "called Option::unwrap on a None value")
    | some enum_proto_path =>
      match root.decl_path message_scope.id with
      | none => .error (.panicked "called Option::unwrap on a None value")
      | some message_path =>
        let enum_ts_path :=
          proto_path_to_ts_path frule enum_proto_path ++
            [TsPathComponent.enum enum_name]
        let types_file_path :=
          proto_path_to_ts_path frule message_path ++
            [TsPathComponent.file "types"]
        let types_file' :=
          match get_relative_import2 types_file_path enum_ts_path with
          | some import_declaration => ensure_import types_file import_declaration
          | none => types_file
        .ok (types_file', .typeReference [⟨enum_name⟩])

/-- Mirrors fn import_message_type (types_compiler.rs lines 347-383):
the referenced message's types module is imported (deduplicated) under
the purpose-dependent symbol, which is then referenced. -/
def import_message_type (frule : String → String) (root : RootScope)
    (message_scope : MsgScope) (types_file : ast2.File)
    (imported_message_id : Nat) (imported_name : String) :
    Except PErr (ast2.File × ast2.TsType) :=
  match root.decl_path imported_message_id with
  | none => .error (.panicked "called Option::unwrap on a None value")
  | some imported_path =>
    match root.decl_path message_scope.id with
    | none => .error (.panicked "called Option::unwrap on a None value")
    | some message_path =>
      let requested_ts_path :=
        proto_path_to_ts_path frule imported_path ++
          [TsPathComponent.file "types", TsPathComponent.interface imported_name]
      let current_file_path :=
        proto_path_to_ts_path frule message_path ++
          [TsPathComponent.file "types"]
      let types_file' :=
        match get_relative_import2 current_file_path requested_ts_path with
        | some import_declaration => ensure_import types_file import_declaration
        | none => types_file
      .ok (types_file', .typeReference [⟨imported_name⟩])

/-- Mirrors fn import_encoding_input_type (types_compiler.rs lines
101-209): scalars map to primitives, the four 64-bit kinds ensure the
util import and map to util.Long | number, enum and message references
go through the import helpers, Repeated wraps in an array type, and
Map aborts with todo!. -/
def import_encoding_input_type (frule : String → String) (root : RootScope)
    (message_scope : MsgScope) (types_file : ast2.File) :
    PType → Except PErr (ast2.File × ast2.TsType)
  | .enum e_id => import_enum_type frule root message_scope types_file e_id
  | .message m_id =>
    (match root.decl_name m_id with
     | none => .error (.panicked "called Option::unwrap on a None value")
     | some nm =>
       import_message_type frule root message_scope types_file m_id
         (message_name_to_encode_type_name nm))
  | .repeated field_type => do
    let (file', element_type) ←
      import_encoding_input_type frule root message_scope types_file field_type
    .ok (file', .arrayType element_type)
  | .map _ _ => .error (.notImplemented "not yet implemented")
  | .bool => .ok (types_file, .boolean)
  | .bytes => .ok (types_file, .typeReference [⟨"Uint8Array"⟩])
  | .double => .ok (types_file, .number)
  | .fixed32 => .ok (types_file, .number)
  | .fixed64 => .ok (types_file, .number)
  | .float => .ok (types_file, .number)
  | .int32 => .ok (types_file, .number)
  | .int64 =>
    .ok (ensure_import types_file
          (ast2.ImportDeclaration.importOf [ast2.ImportSpecifier.new ⟨"util"⟩]
            PROTOBUF_MODULE),
         (ast2.TsType.typeReference [⟨"util"⟩, ⟨"Long"⟩]).or .number)
  | .sfixed64 =>
    .ok (ensure_import types_file
          (ast2.ImportDeclaration.importOf [ast2.ImportSpecifier.new ⟨"util"⟩]
            PROTOBUF_MODULE),
         (ast2.TsType.typeReference [⟨"util"⟩, ⟨"Long"⟩]).or .number)
  | .sint64 =>
    .ok (ensure_import types_file
          (ast2.ImportDeclaration.importOf [ast2.ImportSpecifier.new ⟨"util"⟩]
            PROTOBUF_MODULE),
         (ast2.TsType.typeReference [⟨"util"⟩, ⟨"Long"⟩]).or .number)
  | .uint64 =>
    .ok (ensure_import types_file
          (ast2.ImportDeclaration.importOf [ast2.ImportSpecifier.new ⟨"util"⟩]
            PROTOBUF_MODULE),
         (ast2.TsType.typeReference [⟨"util"⟩, ⟨"Long"⟩]).or .number)
  | .sfixed32 => .ok (types_file, .number)
  | .sint32 => .ok (types_file, .number)
  | .string => .ok (types_file, .string)
  | .uint32 => .ok (types_file, .number)

/-- Mirrors fn import_decode_result_type (types_compiler.rs lines
211-313): like the encode mapping, except that the four 64-bit kinds
map to util.Long alone and a message reference is imported under the
message's own declared name. -/
def import_decode_result_type (frule : String → String) (root : RootScope)
    (message_scope : MsgScope) (types_file : ast2.File) :
    PType → Except PErr (ast2.File × ast2.TsType)
  | .enum e_id => import_enum_type frule root message_scope types_file e_id
  | .message m_id =>
    (match root.decl_name m_id with
     | none => .error (.panicked "called Option::unwrap on a None value")
     | some imported_name =>
       import_message_type frule root message_scope types_file m_id
         imported_name)
  | .repeated field_type => do
    let (file', element_type) ←
      import_decode_result_type frule root message_scope types_file field_type
    .ok (file', .arrayType element_type)
  | .map _ _ => .error (.notImplemented "not yet implemented")
  | .bool => .ok (types_file, .boolean)
  | .bytes => .ok (types_file, .typeReference [⟨"Uint8Array"⟩])
  | .double => .ok (types_file, .number)
  | .fixed32 => .ok (types_file, .number)
  | .fixed64 => .ok (types_file, .number)
  | .float => .ok (types_file, .number)
  | .int32 => .ok (types_file, .number)
  | .int64 =>
    .ok (ensure_import types_file
          (ast2.ImportDeclaration.importOf [ast2.ImportSpecifier.new ⟨"util"⟩]
            PROTOBUF_MODULE),
         .typeReference [⟨"util"⟩, ⟨"Long"⟩])
  | .sfixed64 =>
    .ok (ensure_import types_file
          (ast2.ImportDeclaration.importOf [ast2.ImportSpecifier.new ⟨"util"⟩]
            PROTOBUF_MODULE),
         .typeReference [⟨"util"⟩, ⟨"Long"⟩])
  | .sint64 =>
    .ok (ensure_import types_file
          (ast2.ImportDeclaration.importOf [ast2.ImportSpecifier.new ⟨"util"⟩]
            PROTOBUF_MODULE),
         .typeReference [⟨"util"⟩, ⟨"Long"⟩])
  | .uint64 =>
    .ok (ensure_import types_file
          (ast2.ImportDeclaration.importOf [ast2.ImportSpecifier.new ⟨"util"⟩]
            PROTOBUF_MODULE),
         .typeReference [⟨"util"⟩, ⟨"Long"⟩])
  | .sfixed32 => .ok (types_file, .number)
  | .sint32 => .ok (types_file, .number)
  | .string => .ok (types_file, .string)
  | .uint32 => .ok (types_file, .number)

/-- The member loop of the modular insert_encoded_input_interface
(types_compiler.rs lines 50-66): each field's mapped type is widened
with null and emitted as an optional property; exactly-one-of groups
abort with todo!. -/
def encodeMembers (frule : String → String) (root : RootScope)
    (message_scope : MsgScope) :
    ast2.File → List MessageEntry →
    Except PErr (ast2.File × List ast2.InterfaceMember)
  | file, [] => .ok (file, [])
  | file, .field f :: rest => do
    let (file', t) ←
      import_encoding_input_type frule root message_scope file f.field_type
    let property_type := t.or .null
    let (file'', ms) ← encodeMembers frule root message_scope file' rest
    .ok (file'',
      .propertySignature (ast2.PropertySignature.new_optional f.json_name property_type)
        :: ms)
  | _, .oneOf _ :: _ => .error (.notImplemented "not yet implemented")

/-- Mirrors fn insert_encoded_input_interface (types_compiler.rs lines
37-70). -/
def insert_encoded_input_interface (frule : String → String)
    (root : RootScope) (types_file : ast2.File) (message_scope : MsgScope) :
    Except PErr ast2.File := do
  let (file', members) ←
    encodeMembers frule root message_scope types_file message_scope.decl.entries
  .ok ⟨file'.name,
    ⟨file'.ast.statements ++
      [.interfaceDeclaration
        ⟨[.export], ⟨message_name_to_encode_type_name message_scope.name⟩,
         members⟩]⟩⟩

/-- The member loop of the modular insert_decode_result_interface
(types_compiler.rs lines 82-95): each field's mapped decode type is
widened with null and emitted as an optional property; exactly-one-of
groups abort with todo!. -/
def decodeMembers (frule : String → String) (root : RootScope)
    (message_scope : MsgScope) :
    ast2.File → List MessageEntry →
    Except PErr (ast2.File × List ast2.InterfaceMember)
  | file, [] => .ok (file, [])
  | file, .field f :: rest => do
    let (file', t) ←
      import_decode_result_type frule root message_scope file f.field_type
    let property_type := t.or .null
    let (file'', ms) ← decodeMembers frule root message_scope file' rest
    .ok (file'',
      .propertySignature (ast2.PropertySignature.new_optional f.json_name property_type)
        :: ms)
  | _, .oneOf _ :: _ =>
    .error (.notImplemented "Not implemented handling of OneOf Field")

/-- Mirrors fn insert_decode_result_interface (types_compiler.rs lines
72-99). -/
def insert_decode_result_interface (frule : String → String)
    (root : RootScope) (types_file : ast2.File) (message_scope : MsgScope) :
    Except PErr ast2.File := do
  let (file', members) ←
    decodeMembers frule root message_scope types_file message_scope.decl.entries
  .ok ⟨file'.name,
    ⟨file'.ast.statements ++
      [.interfaceDeclaration ⟨[.export], ⟨message_scope.name⟩, members⟩]⟩⟩

/-- Number of structurally identical copies of an import declaration
among a generated file's statements. -/
def importCount (file : ast2.File) (imp : ast2.ImportDeclaration) : Nat :=
  file.ast.statements.countP (fun s =>
    match s with
    | .importDeclaration d => d == imp
    | _ => false)

end tc

/-- Truth of a type being a union value. -/
def ast.TsType.isUnion : ast.TsType → Bool
  | .unionType _ => true
  | _ => false

/-- A type value is normalized when every union it exposes at the top
level is flat, duplicate-free, Never-free and has at least two
members, as the union smart constructors guarantee. -/
def ast.TsType.Normalized : ast.TsType → Prop
  | .unionType ts =>
    2 ≤ ts.length ∧ ts.Nodup ∧ ∀ x ∈ ts, x ≠ .never ∧ x.isUnion = false
  | _ => True

/-- Name and presence flag of a generated interface member. -/
def memberSig : ast.InterfaceMember → String × Bool
  | .propertySignature p => (p.name.text, p.optional)

/-- The fields of a message entry list, in declaration order. -/
def fieldsOf (entries : List MessageEntry) : List Field :=
  entries.filterMap (fun e =>
    match e with
    | .field f => some f
    | _ => none)

/-- The nested declarations of a message entry list, in declaration
order. -/
def childDeclsOf (entries : List MessageEntry) : List Declaration :=
  entries.filterMap MessageEntry.declarationOf

/-- Kind (folder or not) and name of a generated folder entry. -/
def entryTag : ast.FolderEntry → Bool × String
  | .file f => (false, f.name)
  | .folder n _ => (true, n)

/-- Kind (message or not) and name of a schema declaration. -/
def declTag : Declaration → Bool × String
  | .enum e => (false, e.name)
  | .message m => (true, m.name)

/-- Follows the words of claim C2 (refinement comparison with the
code's search): starting from the base path, append the import's
package segments and look the path up; the search stops successfully
exactly when a subtree containing a file of the import's file name is
found, and otherwise drops one trailing base segment and retries until
the base path is exhausted.  Phrased on the reversed base path. -/
def claimSearchRev (root : PackageTree) (revBase : List String)
    (packages : List String) (file_name : String) : Option ProtoFile :=
  match (root.resolve_subtree (revBase.reverse ++ packages)).bind
      (fun st => st.files.find? (fun f => f.name == file_name)) with
  | some f => some f
  | none =>
    match revBase with
    | [] => none
    | _ :: restRev => claimSearchRev root restRev packages file_name

/-- The claim-side search started from the current file's own package
path. -/
def claimImportSearch (root : PackageTree) (base : List String)
    (packages : List String) (file_name : String) : Option ProtoFile :=
  claimSearchRev root base.reverse packages file_name





/-- Strings joined by a slash, as the claims phrase relative
specifiers. -/
def joinSlash : List String → String
  | [] => ""
  | [x] => x
  | x :: rest => x ++ "/" ++ joinSlash rest

/-- One "../" step per dropped folder level, as the claims phrase
parent-relative specifiers. -/
def dotsStr : Nat → String
  | 0 => ""
  | n + 1 => "../" ++ dotsStr n


/-!
Theorems.  Each claim of the specification review is settled by one
theorem below (with a witness when the theorem carries hypotheses, and
a counterexample where the claim as stated fails on the code).
-/

/-- Claim C9: for every 64-bit integer field kind (int64, uint64,
sint64, sfixed64), the encode-input mapping yields the union of the
util.Long reference type and the plain number type (ensuring the util
import), and the decode-result mapping yields the util.Long reference
type alone (also ensuring the util import). -/
theorem sixty_four_bit_kinds_map_to_long :
    ∀ (frule : String → String) (root : tc.RootScope) (scope : tc.MsgScope)
      (file : ast2.File),
      (tc.import_encoding_input_type frule root scope file .int64 =
        .ok (tc.ensure_import file
              (ast2.ImportDeclaration.importOf
                [ast2.ImportSpecifier.new ⟨"util"⟩] tc.PROTOBUF_MODULE),
             .unionType [.typeReference [⟨"util"⟩, ⟨"Long"⟩], .number])) ∧
      (tc.import_encoding_input_type frule root scope file .uint64 =
        .ok (tc.ensure_import file
              (ast2.ImportDeclaration.importOf
                [ast2.ImportSpecifier.new ⟨"util"⟩] tc.PROTOBUF_MODULE),
             .unionType [.typeReference [⟨"util"⟩, ⟨"Long"⟩], .number])) ∧
      (tc.import_encoding_input_type frule root scope file .sint64 =
        .ok (tc.ensure_import file
              (ast2.ImportDeclaration.importOf
                [ast2.ImportSpecifier.new ⟨"util"⟩] tc.PROTOBUF_MODULE),
             .unionType [.typeReference [⟨"util"⟩, ⟨"Long"⟩], .number])) ∧
      (tc.import_encoding_input_type frule root scope file .sfixed64 =
        .ok (tc.ensure_import file
              (ast2.ImportDeclaration.importOf
                [ast2.ImportSpecifier.new ⟨"util"⟩] tc.PROTOBUF_MODULE),
             .unionType [.typeReference [⟨"util"⟩, ⟨"Long"⟩], .number])) ∧
      (tc.import_decode_result_type frule root scope file .int64 =
        .ok (tc.ensure_import file
              (ast2.ImportDeclaration.importOf
                [ast2.ImportSpecifier.new ⟨"util"⟩] tc.PROTOBUF_MODULE),
             .typeReference [⟨"util"⟩, ⟨"Long"⟩])) ∧
      (tc.import_decode_result_type frule root scope file .uint64 =
        .ok (tc.ensure_import file
              (ast2.ImportDeclaration.importOf
                [ast2.ImportSpecifier.new ⟨"util"⟩] tc.PROTOBUF_MODULE),
             .typeReference [⟨"util"⟩, ⟨"Long"⟩])) ∧
      (tc.import_decode_result_type frule root scope file .sint64 =
        .ok (tc.ensure_import file
              (ast2.ImportDeclaration.importOf
                [ast2.ImportSpecifier.new ⟨"util"⟩] tc.PROTOBUF_MODULE),
             .typeReference [⟨"util"⟩, ⟨"Long"⟩])) ∧
      (tc.import_decode_result_type frule root scope file .sfixed64 =
        .ok (tc.ensure_import file
              (ast2.ImportDeclaration.importOf
                [ast2.ImportSpecifier.new ⟨"util"⟩] tc.PROTOBUF_MODULE),
             .typeReference [⟨"util"⟩, ⟨"Long"⟩])) :=
  fun _ _ _ _ =>
    ⟨rfl, rfl, rfl, rfl, rfl, rfl, rfl, rfl⟩

/-- Claim C6 (code bug): evaluating the modular
insert_decode_result_interface on a message with a single int32 field
shows that the emitted decode-result property is marked optional and
widened with null, contradicting the specified always-present
decode-result shape. -/
theorem decode_result_property_is_optional_in_types_compiler :
    tc.insert_decode_result_interface (fun s => s)
      ⟨fun _ => none, fun _ => none⟩ (ast2.File.new "types")
      ⟨0, ⟨"M", [.field ⟨"a", .int32⟩]⟩⟩ =
    .ok ⟨"types",
      ⟨[.interfaceDeclaration
         ⟨[.export], ⟨"M"⟩,
          [.propertySignature ⟨⟨"a"⟩, .unionType [.number, .null], true⟩]⟩]⟩⟩ :=
  rfl

/-- Claim C8 (code bug): the inline compiler maps a map field whose key
is a message type without any "not implemented" failure - it silently
produces a record type with a Null key type - while the modular
compiler aborts every map field with the distinct "not implemented"
signal. -/
theorem message_keyed_map_is_not_rejected_inline :
    (import_encoding_input_type (fun s => s)
      ⟨.mk "root" [⟨"f", [], [.message ⟨"K", []⟩, .message ⟨"M", []⟩], []⟩] [],
       ⟨"f", [], [.message ⟨"K", []⟩, .message ⟨"M", []⟩], []⟩,
       [⟨"M", []⟩]⟩
      (.map (.idPath ["K"]) (.idPath ["int32"])) =
      .ok (.record .null .number)) ∧
    (tc.import_encoding_input_type (fun s => s)
      ⟨fun _ => none, fun _ => none⟩ ⟨0, ⟨"M", []⟩⟩ (ast2.File.new "types")
      (.map (.message 1) .int32) =
      .error (.notImplemented "not yet implemented")) :=
  ⟨rfl, rfl⟩

/-- Claim C7: ensure_import is idempotent - re-ensuring a structurally
identical import changes nothing - and ensuring the same import twice
in a file that did not contain it yet leaves exactly one such import
statement. -/
theorem ensure_import_dedup :
    ∀ (file : ast2.File) (imp : ast2.ImportDeclaration),
      tc.ensure_import (tc.ensure_import file imp) imp =
        tc.ensure_import file imp ∧
      (tc.importCount file imp = 0 →
        tc.importCount (tc.ensure_import (tc.ensure_import file imp) imp) imp
          = 1) := by
  intro file imp
  by_cases h : file.ast.statements.any (fun s =>
      match s with
      | .importDeclaration d => d == imp
      | _ => false)
  · constructor
    · simp [tc.ensure_import, h]
    · intro h0
      exfalso
      rcases List.any_eq_true.mp h with ⟨s, hs, hp⟩
      have hpos : 0 < file.ast.statements.countP (fun s =>
          match s with
          | ast2.Statement.importDeclaration d => d == imp
          | _ => false) :=
        List.countP_pos_iff.mpr ⟨s, hs, hp⟩
      have h0' : file.ast.statements.countP (fun s =>
          match s with
          | ast2.Statement.importDeclaration d => d == imp
          | _ => false) = 0 := h0
      omega
  · have happend : (tc.ensure_import file imp) =
        ⟨file.name, ⟨file.ast.statements ++ [.importDeclaration imp]⟩⟩ := by
      simp [tc.ensure_import, h]
    have hmem : ((file.ast.statements ++
        [ast2.Statement.importDeclaration imp]).any (fun s =>
          match s with
          | .importDeclaration d => d == imp
          | _ => false)) = true := by
      refine List.any_eq_true.mpr ⟨ast2.Statement.importDeclaration imp, ?_, ?_⟩
      · simp
      · simp
    constructor
    · rw [happend]
      simp [tc.ensure_import, hmem]
    · intro h0
      have h0' : file.ast.statements.countP (fun s =>
          match s with
          | ast2.Statement.importDeclaration d => d == imp
          | _ => false) = 0 := h0
      rw [happend]
      simp [tc.ensure_import, hmem, tc.importCount, List.countP_append,
        List.countP_cons, h0']

/-- Witness for the ensure_import theorem at a concrete file and
import. -/
theorem ensure_import_dedup_witness :
    (tc.ensure_import
        (tc.ensure_import (ast2.File.new "types")
          (ast2.ImportDeclaration.importOf
            [ast2.ImportSpecifier.new ⟨"util"⟩] tc.PROTOBUF_MODULE))
        (ast2.ImportDeclaration.importOf
          [ast2.ImportSpecifier.new ⟨"util"⟩] tc.PROTOBUF_MODULE) =
      tc.ensure_import (ast2.File.new "types")
        (ast2.ImportDeclaration.importOf
          [ast2.ImportSpecifier.new ⟨"util"⟩] tc.PROTOBUF_MODULE)) ∧
    tc.importCount
      (tc.ensure_import
        (tc.ensure_import (ast2.File.new "types")
          (ast2.ImportDeclaration.importOf
            [ast2.ImportSpecifier.new ⟨"util"⟩] tc.PROTOBUF_MODULE))
        (ast2.ImportDeclaration.importOf
          [ast2.ImportSpecifier.new ⟨"util"⟩] tc.PROTOBUF_MODULE))
      (ast2.ImportDeclaration.importOf
        [ast2.ImportSpecifier.new ⟨"util"⟩] tc.PROTOBUF_MODULE) = 1 :=
  ⟨(ensure_import_dedup _ _).1, (ensure_import_dedup _ _).2 rfl⟩



/-- The source's component-at-a-time translation loop distributes over
appending of canonical paths. -/
theorem proto_path_to_ts_path_append :
    ∀ (frule : String → String) (a b : ProtoPath),
      proto_path_to_ts_path frule (a ++ b) =
        proto_path_to_ts_path frule a ++ proto_path_to_ts_path frule b := by
  intro frule a b
  induction a with
  | nil => rfl
  | cons p rest ih => simp [proto_path_to_ts_path, ih]

/-- Package segments translate to folders of the same names. -/
theorem proto_path_to_ts_path_packages :
    ∀ (frule : String → String) (l : List String),
      proto_path_to_ts_path frule (l.map PathComponent.package) =
        l.map (fun s => TsPathComponent.folder s) := by
  intro frule l
  induction l with
  | nil => rfl
  | cons p rest ih => simp [proto_path_to_ts_path, ih]

/-- Message-name segments translate to folders of the same names. -/
theorem proto_path_to_ts_path_messages :
    ∀ (frule : String → String) (l : List MessageDeclaration),
      proto_path_to_ts_path frule
          (l.map (fun m => PathComponent.message m.name)) =
        l.map (fun m => TsPathComponent.folder m.name) := by
  intro frule l
  induction l with
  | nil => rfl
  | cons p rest ih => simp [proto_path_to_ts_path, ih]

/-- Claim C4: the target-module address of a resolved declaration is
its canonical schema address - package segments, the file segment, the
enclosing messages outermost to innermost, then the declaration's own
tagged name - translated segment by segment (Package to Folder of the
same name, File to Folder through the deterministic naming rule,
Message to Folder of the same name, Enum to File of the same name),
with a message target additionally ending in the fixed types File
segment and the Interface segment named after its encode-input type,
and an enum target ending in the Enum symbol segment of its name. -/
theorem resolved_declaration_target_address :
    ∀ (frule : String → String) (root : PackageTree) (pf : ProtoFile)
      (parents : List MessageDeclaration) (d : Declaration),
      encode_import_target frule ⟨⟨root, pf, parents⟩, .dataType d⟩ =
        .ok ((pf.path.map (fun s => TsPathComponent.folder s) ++
              [TsPathComponent.folder (frule pf.name)] ++
              parents.reverse.map (fun m => TsPathComponent.folder m.name)) ++
             (match d with
              | .message m =>
                [TsPathComponent.folder m.name, TsPathComponent.file "types",
                 TsPathComponent.interface (m.name ++ "EncodeInput")]
              | .enum e =>
                [TsPathComponent.file e.name, TsPathComponent.enum e.name])) := by
  intro frule root pf parents d
  have hfile : ∀ n, proto_path_to_ts_path frule [PathComponent.file n] =
      [TsPathComponent.folder (frule n)] := fun _ => rfl
  cases d with
  | enum e =>
    simp only [encode_import_target, DefinedId.path, BlockScope.path,
      proto_path_to_ts_path_append, proto_path_to_ts_path_packages,
      proto_path_to_ts_path_messages, hfile]
    simp [proto_path_to_ts_path, List.append_assoc]
  | message m =>
    simp only [encode_import_target, DefinedId.path, BlockScope.path,
      proto_path_to_ts_path_append, proto_path_to_ts_path_packages,
      proto_path_to_ts_path_messages, hfile]
    simp [proto_path_to_ts_path, List.append_assoc,
      message_name_to_encode_type_name]


/-- The parent scan hits the first enclosing message (innermost first)
that resolves the name, keeping the parent stack from that hit
outward. -/
theorem resolveInParents_split :
    ∀ (name : String) (pre post : List MessageDeclaration)
      (p : MessageDeclaration) (d : Declaration),
      (∀ q ∈ pre, q.resolve name = none) →
      p.resolve name = some d →
      resolveInParents name (pre ++ p :: post) = some (d, p :: post) := by
  intro name pre post p d hpre hp
  induction pre with
  | nil => simp [resolveInParents, hp]
  | cons q rest ih =>
    have hq : q.resolve name = none := hpre q (by simp)
    simp only [List.cons_append, resolveInParents, hq]
    exact ih (fun r hr => hpre r (by simp [hr]))

/-- The parent scan misses when no enclosing message resolves the
name. -/
theorem resolveInParents_none :
    ∀ (name : String) (l : List MessageDeclaration),
      (∀ q ∈ l, q.resolve name = none) →
      resolveInParents name l = none := by
  intro name l hl
  induction l with
  | nil => rfl
  | cons q rest ih =>
    have hq : q.resolve name = none := hl q (by simp)
    simp only [resolveInParents, hq]
    exact ih (fun r hr => hl r (by simp [hr]))

/-- Claim C1: a single-name lookup searches the enclosing messages'
direct nested declarations innermost to outermost, then the owning
file's top-level declarations, then the imports, with the first match
winning: a hit in the first enclosing message with a match shadows the
file's top level regardless of its contents, a file-level hit shadows
the imports, the imports are consulted only when messages and file
both miss, and when everything misses resolution fails with the
"Could not resolve name" error. -/
theorem resolve_search_order :
    ∀ (s : BlockScope) (name : String),
      (∀ (pre post : List MessageDeclaration) (p : MessageDeclaration)
         (d : Declaration),
        s.parent_messages = pre ++ p :: post →
        (∀ q ∈ pre, q.resolve name = none) →
        p.resolve name = some d →
        s.resolve name = .ok ⟨⟨s.root, s.proto_file, p :: post⟩, .dataType d⟩) ∧
      ((∀ q ∈ s.parent_messages, q.resolve name = none) →
        ∀ d, s.proto_file.resolve name = some d →
        s.resolve name = .ok ⟨⟨s.root, s.proto_file, []⟩, .dataType d⟩) ∧
      ((∀ q ∈ s.parent_messages, q.resolve name = none) →
        s.proto_file.resolve name = none →
        ∀ f, resolveImports s.root s.proto_file name s.proto_file.imports =
          .ok (some f) →
        s.resolve name = .ok ⟨⟨s.root, s.proto_file, []⟩, .package f⟩) ∧
      ((∀ q ∈ s.parent_messages, q.resolve name = none) →
        s.proto_file.resolve name = none →
        resolveImports s.root s.proto_file name s.proto_file.imports =
          .ok none →
        s.resolve name = .error (s.error ("Could not resolve name " ++ name))) := by
  intro s name
  refine ⟨?_, ?_, ?_, ?_⟩
  · intro pre post p d hsplit hpre hp
    have h1 : resolveInParents name s.parent_messages = some (d, p :: post) := by
      rw [hsplit]; exact resolveInParents_split name pre post p d hpre hp
    simp [BlockScope.resolve, h1]
  · intro hparents d hfile
    have h1 : resolveInParents name s.parent_messages = none :=
      resolveInParents_none name _ hparents
    simp [BlockScope.resolve, h1, hfile]
  · intro hparents hfile f himp
    have h1 : resolveInParents name s.parent_messages = none :=
      resolveInParents_none name _ hparents
    simp [BlockScope.resolve, h1, hfile, himp]
  · intro hparents hfile himp
    have h1 : resolveInParents name s.parent_messages = none :=
      resolveInParents_none name _ hparents
    simp [BlockScope.resolve, h1, hfile, himp]

/-- Witness for the search-order theorem: a scope whose innermost
enclosing message declares a nested message X and whose file also
declares a top-level X resolves X to the innermost declaration. -/
theorem resolve_search_order_witness :
    BlockScope.resolve
      ⟨.mk "r" [] [], ⟨"cfile", [], [.message ⟨"X", []⟩], []⟩,
       [⟨"Inner", [.message "X" []]⟩]⟩ "X" =
    .ok ⟨⟨.mk "r" [] [], ⟨"cfile", [], [.message ⟨"X", []⟩], []⟩,
          [⟨"Inner", [.message "X" []]⟩]⟩,
         .dataType (.message ⟨"X", []⟩)⟩ :=
  (resolve_search_order _ "X").1 [] [] ⟨"Inner", [.message "X" []]⟩
    (.message ⟨"X", []⟩) rfl (by simp) rfl



/-- Dropping from the end of a list, phrased through the reversed
list. -/
theorem reverse_drop_reverse_eq_take :
    ∀ {α : Type} (l : List α) (m : Nat),
      (l.reverse.drop m).reverse = l.take (l.length - m) := by
  intro α l m
  have h := List.rdrop_eq_reverse_drop_reverse (l := l) (n := m)
  rw [List.rdrop] at h
  exact h.symm

/-- First-hit characterization of the backtracking import search on
the reversed base path: it yields a file exactly when some number n of
trailing segments can be dropped so that every earlier attempt found
no subtree and the attempt after dropping n segments finds a subtree
that contains a file of the requested name. -/
theorem importSearch_some_iff :
    ∀ (root : PackageTree) (packages : List String) (fname : String)
      (f : ProtoFile) (rev : List String),
      importSearch root rev packages fname = some f ↔
      ∃ n, n ≤ rev.length ∧
        (∀ m, m < n →
          root.resolve_subtree ((rev.drop m).reverse ++ packages) = none) ∧
        ∃ st,
          root.resolve_subtree ((rev.drop n).reverse ++ packages) = some st ∧
          st.files.find? (fun g => g.name == fname) = some f := by
  intro root packages fname f rev
  induction rev with
  | nil =>
    rw [importSearch]
    cases h0 : PackageTree.resolve_subtree root (List.reverse [] ++ packages) with
    | some st =>
      constructor
      · intro h
        refine ⟨0, Nat.le_refl 0, fun m hm => absurd hm (Nat.not_lt_zero m),
          st, ?_, h⟩
        simpa using h0
      · rintro ⟨n, hn, _, st', hst', hfind⟩
        have hn0 : n = 0 := Nat.le_zero.mp hn
        subst hn0
        simp only [List.drop_zero, List.reverse_nil, List.nil_append] at hst'
        simp only [List.reverse_nil, List.nil_append] at h0
        rw [h0] at hst'
        cases hst'
        exact hfind
    | none =>
      constructor
      · intro h
        cases h
      · rintro ⟨n, hn, _, st', hst', hfind⟩
        have hn0 : n = 0 := Nat.le_zero.mp hn
        subst hn0
        simp only [List.drop_zero, List.reverse_nil, List.nil_append] at hst'
        simp only [List.reverse_nil, List.nil_append] at h0
        rw [h0] at hst'
        cases hst'
  | cons x rest ih =>
    rw [importSearch]
    cases h0 : PackageTree.resolve_subtree root ((x :: rest).reverse ++ packages) with
    | some st =>
      constructor
      · intro h
        exact ⟨0, Nat.zero_le _, fun m hm => absurd hm (Nat.not_lt_zero m),
          st, by simpa using h0, h⟩
      · rintro ⟨n, hn, hmiss, st', hst', hfind⟩
        cases n with
        | zero =>
          simp only [List.drop_zero] at hst'
          rw [h0] at hst'
          cases hst'
          exact hfind
        | succ k =>
          have := hmiss 0 (Nat.succ_pos k)
          simp only [List.drop_zero] at this
          rw [h0] at this
          cases this
    | none =>
      rw [ih]
      constructor
      · rintro ⟨n, hn, hmiss, st, hst, hfind⟩
        refine ⟨n + 1, by simpa using Nat.succ_le_succ hn, ?_, st, ?_, hfind⟩
        · intro m hm
          cases m with
          | zero => simpa using h0
          | succ j =>
            have hj : j < n := Nat.lt_of_succ_lt_succ hm
            simpa [List.drop_succ_cons] using hmiss j hj
        · simpa [List.drop_succ_cons] using hst
      · rintro ⟨n, hn, hmiss, st, hst, hfind⟩
        cases n with
        | zero =>
          simp only [List.drop_zero] at hst
          rw [h0] at hst
          cases hst
        | succ k =>
          refine ⟨k, by simpa using Nat.le_of_succ_le_succ hn, ?_, st, ?_, hfind⟩
          · intro m hm
            simpa [List.drop_succ_cons] using hmiss (m + 1) (Nat.succ_lt_succ hm)
          · simpa [List.drop_succ_cons] using hst

/-- Claim C2 (amended): the import search starts from the current
file's own package path with the import's package segments appended;
it drops one trailing segment of the base path and retries only when
no subtree exists at the attempted path, and it succeeds with the file
of the import's name exactly when the first attempt that finds a
subtree finds one containing such a file (if that first subtree lacks
the file, the import is abandoned rather than retried further). -/
theorem import_search_first_subtree :
    ∀ (root : PackageTree) (base packages : List String) (fname : String)
      (f : ProtoFile),
      tryImport root base packages fname = some f ↔
      ∃ n, n ≤ base.length ∧
        (∀ m, m < n →
          root.resolve_subtree (base.take (base.length - m) ++ packages) =
            none) ∧
        ∃ st,
          root.resolve_subtree (base.take (base.length - n) ++ packages) =
            some st ∧
          st.files.find? (fun g => g.name == fname) = some f := by
  intro root base packages fname f
  rw [tryImport, importSearch_some_iff]
  constructor
  · rintro ⟨n, hn, hmiss, st, hst, hfind⟩
    refine ⟨n, by simpa using hn, ?_, st, ?_, hfind⟩
    · intro m hm
      have := hmiss m hm
      rwa [reverse_drop_reverse_eq_take] at this
    · rwa [reverse_drop_reverse_eq_take] at hst
  · rintro ⟨n, hn, hmiss, st, hst, hfind⟩
    refine ⟨n, by simpa using hn, ?_, st, ?_, hfind⟩
    · intro m hm
      rw [reverse_drop_reverse_eq_take]
      exact hmiss m hm
    · rw [reverse_drop_reverse_eq_take]
      exact hst

/-- Witness for the amended import-search theorem: with base path
x/y, no subtree at x/y/b nor x/b, and a subtree at b holding bfile,
the search succeeds after two retries. -/
theorem import_search_first_subtree_witness :
    tryImport (.mk "" [] [.mk "b" [⟨"bfile", ["b"], [], []⟩] []])
      ["x", "y"] ["b"] "bfile" = some ⟨"bfile", ["b"], [], []⟩ :=
  (import_search_first_subtree
      (.mk "" [] [.mk "b" [⟨"bfile", ["b"], [], []⟩] []])
      ["x", "y"] ["b"] "bfile" ⟨"bfile", ["b"], [], []⟩).mpr
    ⟨2, by decide,
     by intro m hm; interval_cases m <;> rfl,
     ⟨"b", [⟨"bfile", ["b"], [], []⟩], []⟩, rfl, rfl⟩

/-- Counterexample to claim C2 as stated: the current file (package a)
imports package b's file bfile; a subtree exists at a/b but contains
no file named bfile, while the subtree at b does contain it.  The
claimed search (retry until a subtree containing the file is found)
locates bfile, but the code abandons the import at the first subtree
found and resolution of the name b fails. -/
theorem import_backtracking_counterexample :
    (claimImportSearch
        (.mk "" [⟨"afile", ["a"], [], [⟨["b"], "bfile"⟩]⟩]
          [.mk "a" [⟨"afile", ["a"], [], [⟨["b"], "bfile"⟩]⟩] [.mk "b" [] []],
           .mk "b" [⟨"bfile", ["b"], [.message ⟨"X", []⟩], []⟩] []])
        ["a"] ["b"] "bfile" =
      some ⟨"bfile", ["b"], [.message ⟨"X", []⟩], []⟩) ∧
    (BlockScope.resolve
        ⟨.mk "" [⟨"afile", ["a"], [], [⟨["b"], "bfile"⟩]⟩]
          [.mk "a" [⟨"afile", ["a"], [], [⟨["b"], "bfile"⟩]⟩] [.mk "b" [] []],
           .mk "b" [⟨"bfile", ["b"], [.message ⟨"X", []⟩], []⟩] []],
         ⟨"afile", ["a"], [], [⟨["b"], "bfile"⟩]⟩, []⟩ "b" =
      .error (.protoError "Could not resolve name b\n  in a/afile")) :=
  ⟨rfl, rfl⟩



/-- The post-strip target remainder is a suffix of the target path. -/
theorem stripShared_suffix :
    ∀ (f t : List TsPathComponent), (stripShared f t).2 <:+ t := by
  intro f
  induction f with
  | nil => intro t; cases t <;> simp [stripShared]
  | cons a f ih =>
    intro t
    cases t with
    | nil => simp [stripShared]
    | cons b t =>
      by_cases hab : a = b
      · simp only [stripShared, if_pos hab]
        exact (ih t).trans (List.suffix_cons b t)
      · simp [stripShared, hab]

/-- Last element of a list extended by two elements. -/
theorem getLast_append_pair :
    ∀ {α : Type} (l : List α) (a b : α), (l ++ [a, b]).getLast? = some b := by
  intro α l a b
  induction l with
  | nil => rfl
  | cons x rest ih =>
    rw [List.cons_append, List.getLast?_cons, ih]
    cases rest <;> simp

/-- Unfolding of joinSlash on a cons with a nonempty tail. -/
theorem joinSlash_cons :
    ∀ (x : String) (l : List String), l ≠ [] →
      joinSlash (x :: l) = x ++ "/" ++ joinSlash l := by
  intro x l h
  cases l with
  | nil => exact absurd rfl h
  | cons y ys => rfl

/-- The same-folder specifier loop produces the slash-joined names of
the non-declaration target components. -/
theorem relSpecifierTail_eq :
    ∀ (tFolders : List TsPathComponent) (tfn : String) (dcomp : TsPathComponent),
      (∀ c ∈ tFolders, c.is_folder = true) →
      dcomp.is_declaration = true →
      relSpecifierTail (tFolders ++ [.file tfn, dcomp]) =
        "/" ++ joinSlash (tFolders.map TsPathComponent.nameOf ++ [tfn]) := by
  intro tFolders tfn dcomp hF hd
  induction tFolders with
  | nil =>
    have h1 : (TsPathComponent.file tfn).is_declaration = false := rfl
    simp [relSpecifierTail, h1, hd, joinSlash, TsPathComponent.nameOf]
  | cons c rest ih =>
    have hc : c.is_folder = true := hF c (by simp)
    have hcd : c.is_declaration = false := by
      cases c <;> simp_all [TsPathComponent.is_folder, TsPathComponent.is_declaration]
    have ih' := ih (fun x hx => hF x (by simp [hx]))
    rw [List.cons_append]
    rw [show relSpecifierTail (c :: (rest ++ [TsPathComponent.file tfn, dcomp])) =
        "/" ++ c.nameOf ++ relSpecifierTail (rest ++ [TsPathComponent.file tfn, dcomp]) from by
      simp [relSpecifierTail, hcd, String.append_assoc]]
    rw [ih', List.map_cons]
    cases hrest : List.map TsPathComponent.nameOf rest with
    | nil => simp [joinSlash, String.append_assoc]
    | cons y ys => simp [joinSlash, String.append_assoc]

/-- The "../" loop consumes exactly the leading folders, one "../"
each. -/
theorem leadingDots_eq :
    ∀ (fFolders : List TsPathComponent) (ffn : String),
      (∀ c ∈ fFolders, c.is_folder = true) →
      leadingDots (fFolders ++ [.file ffn]) =
        (dotsStr fFolders.length, [.file ffn]) := by
  intro fFolders ffn hF
  induction fFolders with
  | nil => simp [leadingDots, TsPathComponent.is_folder, dotsStr]
  | cons c rest ih =>
    have hc : c.is_folder = true := hF c (by simp)
    have ih' := ih (fun x hx => hF x (by simp [hx]))
    simp [leadingDots, hc, ih', dotsStr]

/-- The folder-joining loop consumes exactly the leading folders of the
target remainder, producing "name/" pieces whose concatenation with
the file name is the slash-joined path. -/
theorem leadingFolders_eq :
    ∀ (tFolders : List TsPathComponent) (tfn : String) (dcomp : TsPathComponent),
      (∀ c ∈ tFolders, c.is_folder = true) →
      (leadingFolders (tFolders ++ [.file tfn, dcomp])).2 = [.file tfn, dcomp] ∧
      (leadingFolders (tFolders ++ [.file tfn, dcomp])).1 ++ tfn =
        joinSlash (tFolders.map TsPathComponent.nameOf ++ [tfn]) := by
  intro tFolders tfn dcomp hF
  induction tFolders with
  | nil =>
    constructor
    · simp [leadingFolders, TsPathComponent.is_folder]
    · simp [leadingFolders, TsPathComponent.is_folder, joinSlash]
  | cons c rest ih =>
    have hc : c.is_folder = true := hF c (by simp)
    have ih' := ih (fun x hx => hF x (by simp [hx]))
    constructor
    · simp [leadingFolders, hc, ih'.1]
    · simp only [List.cons_append, leadingFolders, hc, if_true, List.map_cons]
      rcases hsplit : leadingFolders (rest ++ [.file tfn, dcomp]) with ⟨fo, rem⟩
      have h2 := ih'.2
      rw [hsplit] at h2
      simp only [hsplit]
      cases hrest : rest.map TsPathComponent.nameOf with
      | nil =>
        rw [hrest] at h2
        simp only [List.nil_append] at h2
        simp [joinSlash, String.append_assoc, h2]
      | cons y ys =>
        rw [hrest] at h2
        simp only [List.cons_append] at h2 ⊢
        simp [joinSlash, String.append_assoc, h2]

/-- Claim C3: after stripping the longest shared leading prefix, a
relative import whose remaining source side starts with a File segment
gets the same-folder specifier "./" followed by the remaining
non-declaration target segments joined by "/", and one whose remaining
source side starts with folders gets one "../" per such leading folder
followed by the remaining target folders and the target file name
joined by "/"; in both cases the imported symbol is the target path's
trailing declaration name.  In particular importing Test (declared in
Hello/defs) from Hello/types yields "./defs" and from Goodbye/types
yields "../Hello/defs", each as a named import of Test. -/
theorem relative_import_specifier :
    (∀ (fromP toP fTail tFolders : List TsPathComponent)
       (ffn tfn : String) (dcomp : TsPathComponent),
      stripShared fromP toP = (.file ffn :: fTail, tFolders ++ [.file tfn, dcomp]) →
      (∀ c ∈ tFolders, c.is_folder = true) →
      dcomp.is_declaration = true →
      get_relative_import fromP toP =
        .ok ⟨⟨none, some [ast.ImportSpecifier.new ⟨dcomp.nameOf⟩]⟩,
             ⟨"./" ++ joinSlash (tFolders.map TsPathComponent.nameOf ++ [tfn])⟩⟩) ∧
    (∀ (fromP toP fFolders tFolders : List TsPathComponent)
       (ffn tfn : String) (dcomp : TsPathComponent),
      stripShared fromP toP = (fFolders ++ [.file ffn], tFolders ++ [.file tfn, dcomp]) →
      fFolders ≠ [] →
      (∀ c ∈ fFolders, c.is_folder = true) →
      (∀ c ∈ tFolders, c.is_folder = true) →
      dcomp.is_declaration = true →
      get_relative_import fromP toP =
        .ok ⟨⟨none, some [ast.ImportSpecifier.new ⟨dcomp.nameOf⟩]⟩,
             ⟨dotsStr fFolders.length ++
              joinSlash (tFolders.map TsPathComponent.nameOf ++ [tfn])⟩⟩) ∧
    (get_relative_import [.folder "Hello", .file "types"]
        [.folder "Hello", .file "defs", .enum "Test"] =
      .ok ⟨⟨none, some [ast.ImportSpecifier.new ⟨"Test"⟩]⟩, ⟨"./defs"⟩⟩) ∧
    (get_relative_import [.folder "Goodbye", .file "types"]
        [.folder "Hello", .file "defs", .enum "Test"] =
      .ok ⟨⟨none, some [ast.ImportSpecifier.new ⟨"Test"⟩]⟩, ⟨"../Hello/defs"⟩⟩) := by
  refine ⟨?_, ?_, rfl, rfl⟩
  · intro fromP toP fTail tFolders ffn tfn dcomp hstrip hTF hd
    have hsfx : (tFolders ++ [TsPathComponent.file tfn, dcomp]) <:+ toP := by
      have := stripShared_suffix fromP toP
      rw [hstrip] at this
      exact this
    rcases hsfx with ⟨pre, hpre⟩
    have hlast : toP.getLast? = some dcomp := by
      rw [← hpre, ← List.append_assoc]
      exact getLast_append_pair _ _ _
    have htlast : (tFolders ++ [TsPathComponent.file tfn, dcomp]).getLast? =
        some dcomp := getLast_append_pair _ _ _
    have hrel := relSpecifierTail_eq tFolders tfn dcomp hTF hd
    rw [get_relative_import, hlast]
    simp only [hd, Bool.not_true, Bool.false_eq_true, if_false, hstrip]
    cases htf : tFolders ++ [TsPathComponent.file tfn, dcomp] with
    | nil => simp at htf
    | cons hd0 tl0 =>
      rw [htf] at htlast hrel
      have hfilef : (TsPathComponent.file ffn).is_file = true := rfl
      simp only [htlast, hd, Bool.not_true, Bool.false_eq_true, if_false,
        hfilef, if_true, hrel]
      rw [← String.append_assoc, show ("." : String) ++ "/" = "./" from rfl]
  · intro fromP toP fFolders tFolders ffn tfn dcomp hstrip hne hFF hTF hd
    have hsfx : (tFolders ++ [TsPathComponent.file tfn, dcomp]) <:+ toP := by
      have := stripShared_suffix fromP toP
      rw [hstrip] at this
      exact this
    rcases hsfx with ⟨pre, hpre⟩
    have hlast : toP.getLast? = some dcomp := by
      rw [← hpre, ← List.append_assoc]
      exact getLast_append_pair _ _ _
    have htlast : (tFolders ++ [TsPathComponent.file tfn, dcomp]).getLast? =
        some dcomp := getLast_append_pair _ _ _
    have hfo := leadingFolders_eq tFolders tfn dcomp hTF
    rw [get_relative_import, hlast]
    simp only [hd, Bool.not_true, Bool.false_eq_true, if_false, hstrip]
    cases hff : fFolders with
    | nil => exact absurd hff hne
    | cons c cs =>
      have hc : c.is_folder = true := hFF c (by simp [hff])
      have hcfile : c.is_file = false := by
        cases c <;> simp_all [TsPathComponent.is_folder, TsPathComponent.is_file]
      have hdots : leadingDots (fFolders ++ [TsPathComponent.file ffn]) =
          (dotsStr fFolders.length, [TsPathComponent.file ffn]) :=
        leadingDots_eq fFolders ffn hFF
      rw [hff] at hdots
      cases htf : tFolders ++ [TsPathComponent.file tfn, dcomp] with
      | nil => simp at htf
      | cons hd0 tl0 =>
        rw [htf] at htlast hfo
        rcases hsplit : leadingFolders (hd0 :: tl0) with ⟨fo, rem⟩
        rw [hsplit] at hfo
        simp only at hfo
        simp only [List.cons_append] at hdots
        have hisf : (TsPathComponent.file tfn).is_file = true := rfl
        have hnof : (TsPathComponent.file tfn).nameOf = tfn := rfl
        simp only [htlast, hd, Bool.not_true, Bool.false_eq_true, if_false,
          hcfile, List.cons_append, hdots, hsplit, hfo.1, hisf, hnof]
        have hfinal : dotsStr (c :: cs).length ++ fo ++ tfn =
            dotsStr (c :: cs).length ++
              joinSlash (tFolders.map TsPathComponent.nameOf ++ [tfn]) := by
          rw [String.append_assoc, hfo.2]
        rw [hfinal]


/-- Witness for the relative-import theorem: importing Test, declared
in Hello/defs, from Goodbye/types goes through the cross-folder branch
and yields the specifier "../Hello/defs" importing Test. -/
theorem relative_import_specifier_witness :
    get_relative_import [.folder "Goodbye", .file "types"]
      [.folder "Hello", .file "defs", .enum "Test"] =
    .ok ⟨⟨none, some [ast.ImportSpecifier.new ⟨"Test"⟩]⟩, ⟨"../Hello/defs"⟩⟩ :=
  relative_import_specifier.2.1 [.folder "Goodbye", .file "types"]
    [.folder "Hello", .file "defs", .enum "Test"]
    [.folder "Goodbye"] [.folder "Hello"] "types" "defs" (.enum "Test")
    rfl (by decide) (by decide) (by decide) rfl



/-- Pushing a list of members preserves the union-builder invariant
(no Never, no nested union, no duplicates), given that pushing each
single member does. -/
theorem unionPushAll_inv :
    ∀ (ts : List ast.TsType),
      (∀ x ∈ ts, ∀ s : List ast.TsType,
        (∀ y ∈ s, y ≠ .never ∧ y.isUnion = false) → s.Nodup →
        (∀ y ∈ ast.unionPush s x, y ≠ .never ∧ y.isUnion = false) ∧
          (ast.unionPush s x).Nodup) →
      ∀ self : List ast.TsType,
        (∀ y ∈ self, y ≠ .never ∧ y.isUnion = false) → self.Nodup →
        (∀ y ∈ ast.unionPush.unionPushAll self ts,
          y ≠ .never ∧ y.isUnion = false) ∧
          (ast.unionPush.unionPushAll self ts).Nodup := by
  intro ts
  induction ts with
  | nil =>
    intro _ self h1 h2
    simpa [ast.unionPush.unionPushAll] using ⟨h1, h2⟩
  | cons x rest ih =>
    intro hx self h1 h2
    have hpush := hx x (by simp) self h1 h2
    simpa [ast.unionPush.unionPushAll] using
      ih (fun z hz => hx z (by simp [hz])) (ast.unionPush self x)
        hpush.1 hpush.2

/-- Pushing any type into a union list preserves the union-builder
invariant. -/
theorem unionPush_inv :
    ∀ (t : ast.TsType) (self : List ast.TsType),
      (∀ y ∈ self, y ≠ .never ∧ y.isUnion = false) → self.Nodup →
      (∀ y ∈ ast.unionPush self t, y ≠ .never ∧ y.isUnion = false) ∧
        (ast.unionPush self t).Nodup := by
  have main : ∀ (N : Nat) (t : ast.TsType), sizeOf t ≤ N →
      ∀ self : List ast.TsType,
      (∀ y ∈ self, y ≠ .never ∧ y.isUnion = false) → self.Nodup →
      (∀ y ∈ ast.unionPush self t, y ≠ .never ∧ y.isUnion = false) ∧
        (ast.unionPush self t).Nodup := by
    intro N
    induction N with
    | zero =>
      intro t ht
      exfalso
      cases t <;> simp at ht
    | succ N ih =>
      intro t ht self h1 h2
      cases t with
      | never => simpa [ast.unionPush] using ⟨h1, h2⟩
      | unionType ts =>
        have hmem : ∀ x ∈ ts, sizeOf x ≤ N := by
          intro x hx
          have hlt : sizeOf x < sizeOf ts := List.sizeOf_lt_of_mem hx
          have hts : sizeOf ts < sizeOf (ast.TsType.unionType ts) := by
            simp
          omega
        simpa [ast.unionPush] using
          unionPushAll_inv ts (fun x hx s p1 p2 => ih x (hmem x hx) s p1 p2)
            self h1 h2
      | number => ?_
      | null => ?_
      | undefined => ?_
      | void => ?_
      | boolean => ?_
      | string => ?_
      | arrayType a => ?_
      | record k v => ?_
      | typeReference i => ?_
      all_goals
        simp only [ast.unionPush]
        split
        next hel => exact ⟨h1, h2⟩
        next hel =>
          have hnm := fun hmem => hel (List.elem_eq_true_of_mem hmem)
          refine ⟨?_, ?_⟩
          · intro x hx
            rcases List.mem_append.mp hx with hx1 | hx2
            · exact h1 x hx1
            · rw [List.mem_singleton] at hx2
              subst hx2
              exact ⟨by simp, by simp [ast.TsType.isUnion]⟩
          · refine h2.append (List.nodup_singleton _) ?_
            intro a ha hb
            rw [List.mem_singleton] at hb
            subst hb
            exact hnm ha
  intro t self h1 h2
  exact main (sizeOf t) t (Nat.le_refl _) self h1 h2

/-- Pushing members that are simple (no Never, no nested union) and
jointly duplicate-free appends them unchanged. -/
theorem unionPushAll_extend :
    ∀ (ts l : List ast.TsType),
      (∀ x ∈ ts, x ≠ .never ∧ x.isUnion = false) →
      (l ++ ts).Nodup →
      ast.unionPush.unionPushAll l ts = l ++ ts := by
  intro ts
  induction ts with
  | nil => intro l _ _; simp [ast.unionPush.unionPushAll]
  | cons x rest ih =>
    intro l hx hnd
    have hx1 := hx x (by simp)
    have hxl : x ∉ l := by
      have := List.disjoint_of_nodup_append hnd
      intro hmem
      exact this hmem (by simp)
    have hel : l.elem x = false := by
      rcases h : l.elem x with _ | _
      · rfl
      · exact absurd (List.mem_of_elem_eq_true h) hxl
    have hpush : ast.unionPush l x = l ++ [x] := by
      rcases hx1 with ⟨hne, hnu⟩
      cases x <;> simp_all [ast.unionPush, ast.TsType.isUnion, hel]
    have hnd' : ((l ++ [x]) ++ rest).Nodup := by
      simpa using hnd
    rw [ast.unionPush.unionPushAll, hpush,
      ih (l ++ [x]) (fun z hz => hx z (by simp [hz])) hnd']
    simp

/-- Pushing members that are simple and already present changes
nothing. -/
theorem unionPushAll_absorb :
    ∀ (ts l : List ast.TsType),
      (∀ x ∈ ts, x ≠ .never ∧ x.isUnion = false) →
      (∀ x ∈ ts, x ∈ l) →
      ast.unionPush.unionPushAll l ts = l := by
  intro ts
  induction ts with
  | nil => intro l _ _; simp [ast.unionPush.unionPushAll]
  | cons x rest ih =>
    intro l hx hsub
    have hx1 := hx x (by simp)
    have hel : l.elem x = true :=
      List.elem_eq_true_of_mem (hsub x (by simp))
    have hpush : ast.unionPush l x = l := by
      rcases hx1 with ⟨hne, hnu⟩
      cases x <;> simp_all [ast.unionPush, ast.TsType.isUnion, hel]
    rw [ast.unionPush.unionPushAll, hpush,
      ih l (fun z hz => hx z (by simp [hz])) (fun z hz => hsub z (by simp [hz]))]

/-- A list of two or more members stays a union under the collapse
conversion. -/
theorem unionToType_of_two_le :
    ∀ (l : List ast.TsType), 2 ≤ l.length →
      ast.unionToType l = .unionType l := by
  intro l hl
  match l with
  | [] => simp at hl
  | [x] => simp at hl
  | x :: y :: rest => rfl

/-- Claim C10 (amended): on normalized type values the union builder
Type::or is idempotent and has Never as a two-sided identity; for all
inputs, whenever or yields a union value that union has at least two
members, contains no Never and no nested union, and has no duplicate
members; and the union-to-type collapse sends the empty union to Never
and a one-member union to its member. -/
theorem type_or_union_algebra :
    (∀ t : ast.TsType, t.Normalized →
      t.or t = t ∧ t.or .never = t ∧ ast.TsType.never.or t = t) ∧
    (∀ a b : ast.TsType, ∀ u : List ast.TsType,
      a.or b = .unionType u →
      2 ≤ u.length ∧ (∀ x ∈ u, x ≠ .never ∧ x.isUnion = false) ∧ u.Nodup) ∧
    ast.unionToType [] = .never ∧
    (∀ x : ast.TsType, ast.unionToType [x] = x) := by
  refine ⟨?_, ?_, rfl, fun x => rfl⟩
  · intro t hnorm
    cases t with
    | never => exact ⟨rfl, rfl, rfl⟩
    | unionType ts =>
      rcases hnorm with ⟨hlen, hnd, hmem⟩
      have hfirst : ast.unionPush [] (ast.TsType.unionType ts) = ts := by
        simpa [ast.unionPush] using
          unionPushAll_extend ts [] hmem (by simpa using hnd)
      have hsecond : ast.unionPush ts (ast.TsType.unionType ts) = ts := by
        simpa [ast.unionPush] using
          unionPushAll_absorb ts ts hmem (fun x hx => hx)
      refine ⟨?_, ?_, ?_⟩
      · rw [ast.TsType.or, hfirst, hsecond, unionToType_of_two_le ts hlen]
      · rw [ast.TsType.or, hfirst]
        have : ast.unionPush ts .never = ts := by simp [ast.unionPush]
        rw [this, unionToType_of_two_le ts hlen]
      · rw [ast.TsType.or]
        have h0 : ast.unionPush [] ast.TsType.never = [] := by
          simp [ast.unionPush]
        rw [h0, hfirst, unionToType_of_two_le ts hlen]
    | number => ?_
    | null => ?_
    | undefined => ?_
    | void => ?_
    | boolean => ?_
    | string => ?_
    | arrayType a => ?_
    | record k v => ?_
    | typeReference i => ?_
    all_goals exact ⟨by simp [ast.TsType.or, ast.unionPush, ast.unionToType],
      by simp [ast.TsType.or, ast.unionPush, ast.unionToType],
      by simp [ast.TsType.or, ast.unionPush, ast.unionToType]⟩
  · intro a b u hu
    have h0 : (∀ y ∈ ([] : List ast.TsType), y ≠ .never ∧ y.isUnion = false) ∧
        ([] : List ast.TsType).Nodup := ⟨by simp, List.nodup_nil⟩
    have h1 := unionPush_inv a [] h0.1 h0.2
    have h2 := unionPush_inv b (ast.unionPush [] a) h1.1 h1.2
    rw [ast.TsType.or] at hu
    rcases hl2 : ast.unionPush (ast.unionPush [] a) b with _ | ⟨x, l⟩
    · rw [hl2] at hu
      simp [ast.unionToType] at hu
    · rcases l with _ | ⟨y, l'⟩
      · rw [hl2] at hu
        simp only [ast.unionToType] at hu
        rw [hl2] at h2
        have := (h2.1 x (by simp)).2
        rw [hu] at this
        simp [ast.TsType.isUnion] at this
      · rw [hl2] at hu
        simp only [ast.unionToType] at hu
        rw [hl2] at h2
        cases hu
        exact ⟨by simp, h2.1, h2.2⟩

/-- Counterexample to claim C10 as stated: or is not idempotent on a
non-normalized union value with duplicate members. -/
theorem or_not_idempotent_on_raw_unions :
    ¬ ((ast.TsType.unionType [.number, .number]).or
        (ast.TsType.unionType [.number, .number]) =
       ast.TsType.unionType [.number, .number]) := by
  decide

/-- Witness for the amended union-algebra theorem at the normalized
union number | boolean. -/
theorem type_or_union_algebra_witness :
    (ast.TsType.unionType [.number, .boolean]).Normalized ∧
    ((ast.TsType.unionType [.number, .boolean]).or
        (ast.TsType.unionType [.number, .boolean]) =
      ast.TsType.unionType [.number, .boolean] ∧
     (ast.TsType.unionType [.number, .boolean]).or .never =
      ast.TsType.unionType [.number, .boolean] ∧
     ast.TsType.never.or (ast.TsType.unionType [.number, .boolean]) =
      ast.TsType.unionType [.number, .boolean]) :=
  have hN : (ast.TsType.unionType [.number, .boolean]).Normalized :=
    ⟨by norm_num, by decide, by decide⟩
  ⟨hN, type_or_union_algebra.1 _ hN⟩



/-- The encode-input member loop emits exactly one optional property
per field, named after the field, in declaration order. -/
theorem encodeMembers_sig :
    ∀ (frule : String → String) (tscope : BlockScope)
      (entries : List MessageEntry) (ms : List ast.InterfaceMember),
      encodeMembers frule tscope entries = .ok ms →
      ms.map memberSig =
        (fieldsOf entries).map (fun f => (f.json_name, true)) := by
  intro frule tscope entries
  induction entries with
  | nil =>
    intro ms h
    simp only [encodeMembers] at h
    cases h
    simp [fieldsOf]
  | cons e rest ih =>
    intro ms h
    cases e with
    | field f =>
      simp only [encodeMembers] at h
      cases himp : import_encoding_input_type frule tscope f.field_type with
      | error err => rw [himp] at h; cases h
      | ok t =>
        rw [himp] at h
        cases hrec : encodeMembers frule tscope rest with
        | error err => rw [hrec] at h; cases h
        | ok ms0 =>
          rw [hrec] at h
          cases h
          simp [fieldsOf, memberSig, ast.PropertySignature.new_optional,
            ih ms0 hrec]
    | oneOf n => simp only [encodeMembers] at h; cases h
    | enumD e0 =>
      simp only [encodeMembers] at h
      simpa [fieldsOf] using ih ms h
    | message n es0 =>
      simp only [encodeMembers] at h
      simpa [fieldsOf] using ih ms h

/-- The decode-result member loop emits exactly one always-present
property per field, named after the field, in declaration order. -/
theorem decodeMembers_sig :
    ∀ (entries : List MessageEntry) (ms : List ast.InterfaceMember),
      decodeMembers entries = .ok ms →
      ms.map memberSig =
        (fieldsOf entries).map (fun f => (f.json_name, false)) := by
  intro entries
  induction entries with
  | nil =>
    intro ms h
    simp only [decodeMembers] at h
    cases h
    simp [fieldsOf]
  | cons e rest ih =>
    intro ms h
    cases e with
    | field f =>
      simp only [decodeMembers] at h
      cases hrec : decodeMembers rest with
      | error err => rw [hrec] at h; cases h
      | ok ms0 =>
        rw [hrec] at h
        cases h
        simp [fieldsOf, memberSig, ast.PropertySignature.new, ih ms0 hrec]
    | oneOf n => simp only [decodeMembers] at h; cases h
    | enumD e0 =>
      simp only [decodeMembers] at h
      simpa [fieldsOf] using ih ms h
    | message n es0 =>
      simp only [decodeMembers] at h
      simpa [fieldsOf] using ih ms h

/-- Structure of a successfully built types file: the folder gains
exactly one file named types holding the exported encode-input
interface followed by the exported decode-result interface, with one
property per field each. -/
theorem insert_message_types_structure :
    ∀ (frule : String → String) (folder : ast.Folder) (scope : BlockScope)
      (md : MessageDeclaration) (folder' : ast.Folder),
      insert_message_types frule folder scope md = .ok folder' →
      ∃ encMs decMs,
        folder' = ⟨folder.name, folder.entries ++
          [.file ⟨"types", ⟨[
            .interfaceDeclaration
              ⟨[.export], ⟨md.name ++ "EncodeInput"⟩, encMs⟩,
            .interfaceDeclaration ⟨[.export], ⟨md.name⟩, decMs⟩]⟩⟩]⟩ ∧
        encMs.map memberSig =
          (fieldsOf md.entries).map (fun f => (f.json_name, true)) ∧
        decMs.map memberSig =
          (fieldsOf md.entries).map (fun f => (f.json_name, false)) := by
  intro frule folder scope md folder' h
  simp only [insert_message_types, insert_encoded_input_interface,
    insert_decode_result_interface, ast.File.new] at h
  cases henc : encodeMembers frule (scope.push md) md.entries with
  | error err => rw [henc] at h; cases h
  | ok encMs =>
    rw [henc] at h
    cases hdec : decodeMembers md.entries with
    | error err => rw [hdec] at h; cases h
    | ok decMs =>
      rw [hdec] at h
      cases h
      exact ⟨encMs, decMs, by
        simp [message_name_to_encode_type_name], encodeMembers_sig _ _ _ _ henc,
        decodeMembers_sig _ _ hdec⟩



/-- Processing the child entries of a message appends exactly one
folder entry per nested declaration, in order: a file named after each
nested enum and a folder named after each nested message, preserving
the surrounding folder's name. -/
theorem goChildren_structure :
    ∀ (N : Nat) (es : List MessageEntry), sizeOf es ≤ N →
      ∀ (frule : String → String) (folder : ast.Folder) (cscope : BlockScope)
        (folder' : ast.Folder),
        insertEntry.goChildren frule folder cscope es = .ok folder' →
        folder'.name = folder.name ∧
        ∃ extra, folder'.entries = folder.entries ++ extra ∧
          extra.map entryTag = (childDeclsOf es).map declTag := by
  intro N
  induction N with
  | zero =>
    intro es hsz frule folder cscope folder' hok
    exfalso
    cases es <;> simp at hsz
  | succ N ih =>
    intro es hsz frule folder cscope folder' hok
    cases es with
    | nil =>
      simp only [insertEntry.goChildren] at hok
      cases hok
      exact ⟨rfl, [], by simp, by simp [childDeclsOf]⟩
    | cons e rest =>
      have hrest : sizeOf rest ≤ N := by
        have hepos : 0 < sizeOf e := by cases e <;> simp_arith
        simp only [List.cons.sizeOf_spec] at hsz
        omega
      cases e with
      | field f =>
        simp only [insertEntry.goChildren, insertEntry, bind, Except.bind] at hok
        rcases ih rest hrest frule folder cscope folder' hok with
          ⟨hname, extra, hent, htag⟩
        exact ⟨hname, extra, hent, by
          simpa [childDeclsOf, MessageEntry.declarationOf] using htag⟩
      | oneOf n =>
        simp only [insertEntry.goChildren, insertEntry, bind, Except.bind] at hok
        rcases ih rest hrest frule folder cscope folder' hok with
          ⟨hname, extra, hent, htag⟩
        exact ⟨hname, extra, hent, by
          simpa [childDeclsOf, MessageEntry.declarationOf] using htag⟩
      | enumD e0 =>
        simp only [insertEntry.goChildren, insertEntry, bind, Except.bind] at hok
        rcases ih rest hrest frule (insert_enum_declaration folder e0) cscope
          folder' hok with ⟨hname, extra, hent, htag⟩
        refine ⟨hname.trans (by simp [insert_enum_declaration]),
          ast.FolderEntry.file ⟨e0.name,
            ⟨[.enumDeclaration ⟨[.export], ⟨e0.name⟩,
              e0.entries.map (fun entry =>
                ⟨⟨entry.name⟩, some (.numberV ⟨toString entry.value⟩)⟩)⟩]⟩⟩
            :: extra, ?_, ?_⟩
        · rw [hent]
          simp [insert_enum_declaration]
        · simp only [List.map_cons, htag]
          simp [entryTag, declTag, childDeclsOf, MessageEntry.declarationOf]
      | message n es0 =>
        have hes0 : sizeOf es0 ≤ N := by
          simp only [List.cons.sizeOf_spec, MessageEntry.message.sizeOf_spec]
            at hsz
          omega
        simp only [insertEntry.goChildren] at hok
        cases hmsg : insertEntry frule folder cscope (.message n es0) with
        | error err =>
          rw [hmsg] at hok
          simp [bind, Except.bind] at hok
        | ok folderA =>
          rw [hmsg] at hok
          simp only [bind, Except.bind] at hok
          simp only [insertEntry] at hmsg
          cases h1 : insert_message_types frule (ast.Folder.new n) cscope
            ⟨n, es0⟩ with
          | error err =>
            rw [h1] at hmsg
            simp [bind, Except.bind] at hmsg
          | ok f1 =>
            rw [h1] at hmsg
            simp only [bind, Except.bind] at hmsg
            cases h4 : insertEntry.goChildren frule
              (insert_decode (insert_encode f1)) (cscope.push ⟨n, es0⟩) es0 with
            | error err =>
              rw [h4] at hmsg
              simp [bind, Except.bind] at hmsg
            | ok f4 =>
              rw [h4] at hmsg
              simp only [bind, Except.bind] at hmsg
              cases hmsg
              rcases ih es0 hes0 frule (insert_decode (insert_encode f1))
                (cscope.push ⟨n, es0⟩) f4 h4 with ⟨hf4name, _, _, _⟩
              rcases insert_message_types_structure frule (ast.Folder.new n)
                cscope ⟨n, es0⟩ f1 h1 with ⟨encMs, decMs, hf1, _, _⟩
              have hf4n : f4.name = n := by
                rw [hf4name]
                simp [insert_decode, insert_encode, hf1, ast.Folder.new]
              rcases ih rest hrest frule
                ⟨folder.name, folder.entries ++ [.folder f4.name f4.entries]⟩
                cscope folder' hok with ⟨hname, extra, hent, htag⟩
              refine ⟨by simpa using hname,
                .folder f4.name f4.entries :: extra, ?_, ?_⟩
              · rw [hent]
                simp
              · simp only [List.map_cons, htag]
                simp [entryTag, declTag, childDeclsOf,
                  MessageEntry.declarationOf, hf4n]



/-- Claim C5: a successfully compiled message adds exactly one folder,
named after the message, to its parent folder; that folder holds
exactly one types file whose statements are exactly the exported
encode-input interface followed by the exported decode-result
interface, each with exactly one property per field of the message in
declaration order, then the placeholder (empty) encode and decode
files, then exactly one nested folder or enum file per nested message
or enum declaration, in order.  The Ok hypothesis embodies the
precondition that the message tree contains no exactly-one-of field
group (those abort compilation). -/
theorem message_folder_structure :
    ∀ (frule : String → String) (parent : ast.Folder) (scope : BlockScope)
      (md : MessageDeclaration) (parent' : ast.Folder),
      insert_message_declaration frule parent scope md = .ok parent' →
      parent'.name = parent.name ∧
      ∃ (encMs decMs : List ast.InterfaceMember) (rest : List ast.FolderEntry),
        parent'.entries = parent.entries ++
          [.folder md.name
            (.file ⟨"types", ⟨[
                .interfaceDeclaration
                  ⟨[.export], ⟨md.name ++ "EncodeInput"⟩, encMs⟩,
                .interfaceDeclaration ⟨[.export], ⟨md.name⟩, decMs⟩]⟩⟩ ::
             .file ⟨"encode", ⟨[]⟩⟩ :: .file ⟨"decode", ⟨[]⟩⟩ :: rest)] ∧
        encMs.map memberSig =
          (fieldsOf md.entries).map (fun f => (f.json_name, true)) ∧
        decMs.map memberSig =
          (fieldsOf md.entries).map (fun f => (f.json_name, false)) ∧
        rest.map entryTag = (childDeclsOf md.entries).map declTag := by
  intro frule parent scope md parent' h
  simp only [insert_message_declaration, insertEntry] at h
  cases h1 : insert_message_types frule (ast.Folder.new md.name) scope
    ⟨md.name, md.entries⟩ with
  | error err =>
    rw [h1] at h
    simp [bind, Except.bind] at h
  | ok f1 =>
    rw [h1] at h
    simp only [bind, Except.bind] at h
    cases h4 : insertEntry.goChildren frule (insert_decode (insert_encode f1))
      (scope.push ⟨md.name, md.entries⟩) md.entries with
    | error err =>
      rw [h4] at h
      simp [bind, Except.bind] at h
    | ok f4 =>
      rw [h4] at h
      simp only [bind, Except.bind] at h
      cases h
      rcases insert_message_types_structure frule (ast.Folder.new md.name)
        scope ⟨md.name, md.entries⟩ f1 h1 with ⟨encMs, decMs, hf1, henc, hdec⟩
      rcases goChildren_structure (sizeOf md.entries) md.entries
        (Nat.le_refl _) frule (insert_decode (insert_encode f1))
        (scope.push ⟨md.name, md.entries⟩) f4 h4 with
        ⟨hf4name, extra, hf4ent, htag⟩
      have hf4n : f4.name = md.name := by
        rw [hf4name]
        simp [insert_decode, insert_encode, hf1, ast.Folder.new]
      have hf4e : f4.entries =
          ast.FolderEntry.file ⟨"types", ⟨[
              .interfaceDeclaration
                ⟨[.export], ⟨md.name ++ "EncodeInput"⟩, encMs⟩,
              .interfaceDeclaration ⟨[.export], ⟨md.name⟩, decMs⟩]⟩⟩ ::
            .file ⟨"encode", ⟨[]⟩⟩ :: .file ⟨"decode", ⟨[]⟩⟩ :: extra := by
        rw [hf4ent]
        simp [insert_decode, insert_encode, hf1, ast.Folder.new, ast.File.new]
      exact ⟨rfl, encMs, decMs, extra, by rw [hf4n, hf4e], henc, hdec, htag⟩

/-- Witness for the message-folder theorem: a concrete message with an
int32 field, a nested enum and a nested empty message compiles to
exactly the described folder. -/
theorem message_folder_structure_witness :
    (⟨"out", [.folder "M"
      [.file ⟨"types", ⟨[
          .interfaceDeclaration ⟨[.export], ⟨"MEncodeInput"⟩,
            [.propertySignature ⟨⟨"a"⟩, .number, true⟩]⟩,
          .interfaceDeclaration ⟨[.export], ⟨"M"⟩,
            [.propertySignature ⟨⟨"a"⟩, .null, false⟩]⟩]⟩⟩,
       .file ⟨"encode", ⟨[]⟩⟩,
       .file ⟨"decode", ⟨[]⟩⟩,
       .file ⟨"E", ⟨[.enumDeclaration ⟨[.export], ⟨"E"⟩,
          [⟨⟨"A"⟩, some (.numberV ⟨"0"⟩)⟩]⟩]⟩⟩,
       .folder "N"
         [.file ⟨"types", ⟨[
             .interfaceDeclaration ⟨[.export], ⟨"NEncodeInput"⟩, []⟩,
             .interfaceDeclaration ⟨[.export], ⟨"N"⟩, []⟩]⟩⟩,
          .file ⟨"encode", ⟨[]⟩⟩,
          .file ⟨"decode", ⟨[]⟩⟩]]]⟩ : ast.Folder).name =
      (ast.Folder.new "out").name ∧
    ∃ (encMs decMs : List ast.InterfaceMember) (rest : List ast.FolderEntry),
      (⟨"out", [.folder "M"
        [.file ⟨"types", ⟨[
            .interfaceDeclaration ⟨[.export], ⟨"MEncodeInput"⟩,
              [.propertySignature ⟨⟨"a"⟩, .number, true⟩]⟩,
            .interfaceDeclaration ⟨[.export], ⟨"M"⟩,
              [.propertySignature ⟨⟨"a"⟩, .null, false⟩]⟩]⟩⟩,
         .file ⟨"encode", ⟨[]⟩⟩,
         .file ⟨"decode", ⟨[]⟩⟩,
         .file ⟨"E", ⟨[.enumDeclaration ⟨[.export], ⟨"E"⟩,
            [⟨⟨"A"⟩, some (.numberV ⟨"0"⟩)⟩]⟩]⟩⟩,
         .folder "N"
           [.file ⟨"types", ⟨[
               .interfaceDeclaration ⟨[.export], ⟨"NEncodeInput"⟩, []⟩,
               .interfaceDeclaration ⟨[.export], ⟨"N"⟩, []⟩]⟩⟩,
            .file ⟨"encode", ⟨[]⟩⟩,
            .file ⟨"decode", ⟨[]⟩⟩]]]⟩ : ast.Folder).entries =
        (ast.Folder.new "out").entries ++
        [.folder (⟨"M", [.field ⟨"a", .idPath ["int32"]⟩,
            .enumD ⟨"E", [⟨"A", 0⟩]⟩, .message "N" []]⟩ :
              MessageDeclaration).name
          (.file ⟨"types", ⟨[
              .interfaceDeclaration ⟨[.export], ⟨"M" ++ "EncodeInput"⟩, encMs⟩,
              .interfaceDeclaration ⟨[.export], ⟨"M"⟩, decMs⟩]⟩⟩ ::
           .file ⟨"encode", ⟨[]⟩⟩ :: .file ⟨"decode", ⟨[]⟩⟩ :: rest)] ∧
      encMs.map memberSig =
        (fieldsOf [.field ⟨"a", .idPath ["int32"]⟩,
          .enumD ⟨"E", [⟨"A", 0⟩]⟩, .message "N" []]).map
          (fun f => (f.json_name, true)) ∧
      decMs.map memberSig =
        (fieldsOf [.field ⟨"a", .idPath ["int32"]⟩,
          .enumD ⟨"E", [⟨"A", 0⟩]⟩, .message "N" []]).map
          (fun f => (f.json_name, false)) ∧
      rest.map entryTag =
        (childDeclsOf [.field ⟨"a", .idPath ["int32"]⟩,
          .enumD ⟨"E", [⟨"A", 0⟩]⟩, .message "N" []]).map declTag :=
  message_folder_structure (fun s => s) (ast.Folder.new "out")
    (BlockScope.new (.mk "root" [] [])
      ⟨"world", ["hello"],
       [.message ⟨"M", [.field ⟨"a", .idPath ["int32"]⟩,
          .enumD ⟨"E", [⟨"A", 0⟩]⟩, .message "N" []]⟩], []⟩)
    ⟨"M", [.field ⟨"a", .idPath ["int32"]⟩,
      .enumD ⟨"E", [⟨"A", 0⟩]⟩, .message "N" []]⟩ _ rfl


end Protobufts

